import Mathlib

/-!
# A formal model of the Minesweeper engine in src/script.js

The definitions below are a shallow embedding of the game engine: the board is
a function from coordinates to cell records, the engine's mutable globals form
a `GameState`, and each source function becomes a state-passing Lean function.
Math.random draws are modeled by an explicit stream of seed pairs.  DOM and
timer manipulations are presentation effects and are not part of the model;
the message text written by setMessage is kept because it records the win/lose
outcome of endGame.
-/

namespace Minesweeper

/-- One board cell, as built by createEmptyBoard (script.js lines 71-88).  The
source object also stores row, col and a DOM element reference: the first two
are the cell's index into the board (here the argument of the board function)
and the last is presentation state, so none of them appear here. -/
structure Cell where
  mine : Bool
  adjacent : Nat
  revealed : Bool
  flagged : Bool
  deriving DecidableEq, Repr

/-- A fresh covered cell (mine: false, adjacent: 0, revealed: false, flagged: false). -/
def Cell.fresh : Cell :=
  { mine := false, adjacent := 0, revealed := false, flagged := false }

/-- The board, indexed by (row, col).  The source uses a rows x cols array of
cell objects; coordinates outside the grid are never touched by the guarded
operations below. -/
def Board : Type := Nat → Nat → Cell

/-- createEmptyBoard (script.js lines 71-88). -/
def createEmptyBoard : Board := fun _ _ => Cell.fresh

/-- In-place mutation of one cell of the board. -/
def updateCell (b : Board) (r c : Nat) (f : Cell → Cell) : Board :=
  fun r' c' => if r' = r ∧ c' = c then f (b r' c') else b r' c'

/-- The engine's mutable globals (script.js lines 25-34).  timerInterval and
timeElapsed drive the displayed clock only and are omitted.  flagsPlaced is an
Int because the source decrements a plain counter. -/
@[ext]
structure GameState where
  rows : Nat
  cols : Nat
  mineCount : Nat
  board : Board
  flagsPlaced : Int
  firstClick : Bool
  gameOver : Bool
  revealedCount : Nat
  message : String

/-- The eight king-move offsets in the iteration order of getNeighbors
(script.js lines 122-135), with the (0,0) offset skipped. -/
def neighborOffsets : List (Int × Int) :=
  [(-1, -1), (-1, 0), (-1, 1), (0, -1), (0, 1), (1, -1), (1, 0), (1, 1)]

/-- getNeighbors (script.js lines 122-135): the in-bounds king-move neighbors
of (r, c), as coordinates. -/
def getNeighbors (rows cols r c : Nat) : List (Nat × Nat) :=
  neighborOffsets.filterMap fun d =>
    let nr : Int := (r : Int) + d.1
    let nc : Int := (c : Int) + d.2
    if 0 ≤ nr ∧ nr < (rows : Int) ∧ 0 ≤ nc ∧ nc < (cols : Int) then
      some (nr.toNat, nc.toNat)
    else none

/-- countAdjacentMines (script.js lines 118-120). -/
def countAdjacentMines (rows cols : Nat) (b : Board) (r c : Nat) : Nat :=
  (getNeighbors rows cols r c).foldl
    (fun acc p => acc + if (b p.1 p.2).mine then 1 else 0) 0

/-- board[r][c].mine = true. -/
def setMine (b : Board) (r c : Nat) : Board :=
  updateCell b r c fun cell => { cell with mine := true }

/-- The while loop of placeMines (script.js lines 99-106).  Each
Math.floor(Math.random() * rows) draw is a uniform pick from 0..rows-1,
modeled by reducing a seed from the stream modulo the grid size.  The source
loops until mineCount mines are placed and would spin forever if the draws
never sufficed; an exhausted stream stops with the mines placed so far, and
the returned counter says whether placement completed. -/
def placeMinesLoop (rows cols mineCount safeRow safeCol : Nat) :
    List (Nat × Nat) → Board → Nat → Board × Nat
  | [], b, placed => (b, placed)
  | (x, y) :: rest, b, placed =>
    if mineCount ≤ placed then (b, placed)
    else
      let r := x % rows
      let c := y % cols
      if (b r c).mine then
        placeMinesLoop rows cols mineCount safeRow safeCol rest b placed
      else if r = safeRow ∧ c = safeCol then
        placeMinesLoop rows cols mineCount safeRow safeCol rest b placed
      else
        placeMinesLoop rows cols mineCount safeRow safeCol rest (setMine b r c) (placed + 1)

/-- The adjacency pass of placeMines (script.js lines 108-115): assign the
adjacent count of every in-bounds non-mine cell.  The source loop writes only
adjacent fields and reads only mine fields, so the sequential in-place update
equals this simultaneous one. -/
def computeAdjacency (rows cols : Nat) (b : Board) : Board :=
  fun r c =>
    if r < rows ∧ c < cols ∧ (b r c).mine = false then
      { b r c with adjacent := countAdjacentMines rows cols b r c }
    else b r c

/-- placeMines (script.js lines 91-116).  The safeZone set holds exactly the
clicked cell (the neighbor-protecting line is commented out in the source). -/
def placeMines (s : GameState) (safeRow safeCol : Nat) (stream : List (Nat × Nat)) : GameState :=
  let res := placeMinesLoop s.rows s.cols s.mineCount safeRow safeCol stream s.board 0
  { s with board := computeAdjacency s.rows s.cols res.1 }

/-- toggleFlag (script.js lines 221-236): rejected on a revealed cell,
otherwise flips the flag and moves the shared counter by one. -/
def toggleFlag (s : GameState) (r c : Nat) : GameState :=
  if (s.board r c).revealed then s
  else
    let nowFlagged := !(s.board r c).flagged
    { s with
      board := updateCell s.board r c fun cell => { cell with flagged := !cell.flagged },
      flagsPlaced := if nowFlagged then s.flagsPlaced + 1 else s.flagsPlaced - 1 }

/-- board[r][c].revealed = true. -/
def revealOne (b : Board) (r c : Nat) : Board :=
  updateCell b r c fun cell => { cell with revealed := true }

/-- The getNeighbors(...).forEach body of floodReveal (script.js lines
284-298): reveal every unrevealed, unflagged, non-mine neighbor, count it, and
push the zero-adjacency ones onto the back of the queue. -/
def processNeighbors (rows cols : Nat) :
    List (Nat × Nat) → Board → Nat → List (Nat × Nat) → Board × Nat × List (Nat × Nat)
  | [], b, cnt, q => (b, cnt, q)
  | p :: rest, b, cnt, q =>
    let cell := b p.1 p.2
    if cell.revealed = false ∧ cell.flagged = false ∧ cell.mine = false then
      if 0 < cell.adjacent then
        processNeighbors rows cols rest (revealOne b p.1 p.2) (cnt + 1) q
      else
        processNeighbors rows cols rest (revealOne b p.1 p.2) (cnt + 1) (q ++ [p])
    else processNeighbors rows cols rest b cnt q

/-- The while loop of floodReveal (script.js lines 278-299): FIFO queue with a
visited set (here a duplicate-free list).  The source loop always terminates,
since every productive iteration visits a new in-bounds cell; the fuel
argument bounds the iteration count and floodReveal below passes enough fuel
for the loop to run to completion. -/
def floodLoop (rows cols : Nat) :
    Nat → Board → Nat → List (Nat × Nat) → List (Nat × Nat) → Board × Nat
  | 0, b, cnt, _, _ => (b, cnt)
  | _ + 1, b, cnt, [], _ => (b, cnt)
  | fuel + 1, b, cnt, p :: rest, visited =>
    if p ∈ visited then floodLoop rows cols fuel b cnt rest visited
    else
      let res := processNeighbors rows cols (getNeighbors rows cols p.1 p.2) b cnt rest
      floodLoop rows cols fuel res.1 res.2.1 res.2.2 (p :: visited)

/-- floodReveal (script.js lines 274-300), seeded with the start cell. -/
def floodReveal (s : GameState) (r c : Nat) : GameState :=
  let res := floodLoop s.rows s.cols (9 * (s.rows * s.cols) + 1)
    s.board s.revealedCount [(r, c)] []
  { s with board := res.1, revealedCount := res.2 }

/-- checkWin (script.js lines 302-305). -/
def checkWin (s : GameState) : Bool :=
  decide (s.rows * s.cols - s.mineCount ≤ s.revealedCount) && !s.gameOver

/-- The text setMessage shows on a win (script.js line 311). -/
def winMessage : String := "You win! 🎉"

/-- The text setMessage shows on a loss (script.js line 315). -/
def loseMessage : String := "Boom! You hit a mine. 💥"

/-- revealAllMines (script.js lines 321-338): expose every still-covered mine.
The won argument of the source only selects the emoji shown, and marking
incorrect flags only adds a CSS class, so neither appears in the model.  Note
that the source neither clears the flagged field of a flagged mine nor touches
revealedCount here. -/
def revealAllMines (s : GameState) : GameState :=
  { s with
    board := fun r c =>
      if r < s.rows ∧ c < s.cols ∧ (s.board r c).mine = true ∧ (s.board r c).revealed = false then
        { s.board r c with revealed := true }
      else s.board r c }

/-- endGame (script.js lines 307-319): set gameOver, record the outcome via
setMessage, expose the mines. -/
def endGame (s : GameState) (win : Bool) : GameState :=
  revealAllMines { s with gameOver := true, message := if win then winMessage else loseMessage }

/-- The first-click step of revealCell (script.js lines 241-245): lazily place
the mines with the clicked cell as the safe cell. -/
def revealPrep (s : GameState) (r c : Nat) (stream : List (Nat × Nat)) : GameState :=
  if s.firstClick then { placeMines s r c stream with firstClick := false } else s

/-- revealCell (script.js lines 238-272).  The revealed/flagged guard reads
the cell before mine placement; the mine and adjacent fields are read after
it, from the updated board, as in the source where placeMines mutates the very
cell object revealCell holds. -/
def revealCell (s : GameState) (r c : Nat) (stream : List (Nat × Nat)) : GameState :=
  if (s.board r c).revealed = true ∨ (s.board r c).flagged = true then s
  else
    let s1 := revealPrep s r c stream
    let s2 := { s1 with board := revealOne s1.board r c, revealedCount := s1.revealedCount + 1 }
    if (s2.board r c).mine then endGame s2 false
    else
      let s3 := if (s2.board r c).adjacent = 0 then floodReveal s2 r c else s2
      if checkWin s3 then endGame s3 true else s3

/-- onCellClick (script.js lines 171-176): the reveal command as issued by the
UI.  Events always target an existing grid cell, so out-of-bounds coordinates
are modeled as no-ops. -/
def cmdReveal (s : GameState) (r c : Nat) (stream : List (Nat × Nat)) : GameState :=
  if r < s.rows ∧ c < s.cols then
    if s.gameOver then s
    else if (s.board r c).flagged then s
    else revealCell s r c stream
  else s

/-- onCellRightClick (script.js lines 178-184): the flag command as issued by
the UI. -/
def cmdToggleFlag (s : GameState) (r c : Nat) : GameState :=
  if r < s.rows ∧ c < s.cols then
    if s.gameOver then s
    else if (s.board r c).revealed then s
    else toggleFlag s r c
  else s

/-- The state written by resetGame (script.js lines 340-357), parametrized by
the configuration it installs into the global rows, cols and mineCount. -/
def resetState (rows cols mineCount : Nat) : GameState :=
  { rows := rows, cols := cols, mineCount := mineCount, board := createEmptyBoard,
    flagsPlaced := 0, firstClick := true, gameOver := false, revealedCount := 0,
    message := "" }

/-- resetGame (script.js lines 340-357): ignores the previous state entirely,
performs no validation, and always installs the beginner difficulty of 9 rows,
9 cols and 10 mines (the settings form was removed from the page). -/
def resetGame (_s : GameState) : GameState := resetState 9 9 10

/-- The state right after page load: resetGame runs on initialization
(script.js line 401). -/
def initState : GameState := resetState 9 9 10

/-- The game phase of the design document, derived from the stored state:
before endGame the phase is NotStarted until the first reveal fires, and
endGame records Won or Lost through the message text. -/
inductive Phase where
  | NotStarted
  | InProgress
  | Won
  | Lost
  deriving DecidableEq, Repr

/-- The phase of a state. -/
def phase (s : GameState) : Phase :=
  if s.gameOver = false then (if s.firstClick then .NotStarted else .InProgress)
  else if s.message = winMessage then .Won else .Lost

/-- The coordinates of the grid, as a finite set. -/
def gridCells (rows cols : Nat) : Finset (Nat × Nat) :=
  Finset.range rows ×ˢ Finset.range cols

/-- How many grid cells carry a mine. -/
def countMines (rows cols : Nat) (b : Board) : Nat :=
  ((gridCells rows cols).filter fun p => (b p.1 p.2).mine = true).card

/-- How many grid cells are currently flagged. -/
def countFlags (rows cols : Nat) (b : Board) : Nat :=
  ((gridCells rows cols).filter fun p => (b p.1 p.2).flagged = true).card

/-- A sequence of flag commands, applied left to right. -/
def applyToggles (s : GameState) (l : List (Nat × Nat)) : GameState :=
  l.foldl (fun t p => cmdToggleFlag t p.1 p.2) s

/-- States reachable from a fresh page load by any sequence of reveal and flag
commands. -/
inductive Reachable : GameState → Prop
  | init : Reachable initState
  | reveal (s : GameState) (r c : Nat) (stream : List (Nat × Nat)) :
      Reachable s → Reachable (cmdReveal s r c stream)
  | flag (s : GameState) (r c : Nat) :
      Reachable s → Reachable (cmdToggleFlag s r c)

/-- King-move adjacency of two coordinates (spec side): distinct cells whose
row indices and column indices each differ by at most one. -/
def kingAdj (p q : Nat × Nat) : Prop :=
  p ≠ q ∧ p.1 ≤ q.1 + 1 ∧ q.1 ≤ p.1 + 1 ∧ p.2 ≤ q.2 + 1 ∧ q.2 ≤ p.2 + 1

instance (p q : Nat × Nat) : Decidable (kingAdj p q) :=
  decidable_of_iff
    (p ≠ q ∧ p.1 ≤ q.1 + 1 ∧ q.1 ≤ p.1 + 1 ∧ p.2 ≤ q.2 + 1 ∧ q.2 ≤ p.2 + 1) Iff.rfl

/-- Brute-force neighbor scan (spec side): the number of in-bounds king-move
neighbors of (r, c) whose isMine flag is true. -/
def specAdjCount (rows cols : Nat) (b : Board) (r c : Nat) : Nat :=
  ((gridCells rows cols).filter fun q => kingAdj (r, c) q ∧ (b q.1 q.2).mine = true).card

/-- The neighbor test of floodReveal (script.js line 285) as a Boolean
predicate: the cell is unrevealed, unflagged and not a mine. -/
def floodCand (b : Board) (q : Nat × Nat) : Bool :=
  !(b q.1 q.2).revealed && !(b q.1 q.2).flagged && !(b q.1 q.2).mine

/-- floodCand together with zero adjacency: the cells floodReveal pushes onto
its queue (script.js line 295). -/
def floodCandZero (b : Board) (q : Nat × Nat) : Bool :=
  floodCand b q && ((b q.1 q.2).adjacent == 0)

/-- Cells the flood expansion dequeues: the start cell, plus every cell
reachable from it through in-bounds king-move steps onto unrevealed,
unflagged, non-mine cells of adjacency zero (all judged in the board b the
flood started from). -/
inductive FloodReach (rows cols : Nat) (b : Board) (r0 c0 : Nat) : Nat × Nat → Prop
  | start : FloodReach rows cols b r0 c0 (r0, c0)
  | step (p q : Nat × Nat) : FloodReach rows cols b r0 c0 p →
      q ∈ getNeighbors rows cols p.1 p.2 →
      (b q.1 q.2).revealed = false → (b q.1 q.2).flagged = false →
      (b q.1 q.2).mine = false → (b q.1 q.2).adjacent = 0 →
      FloodReach rows cols b r0 c0 q

/-- The set of cells floodReveal newly reveals: every unrevealed, unflagged,
non-mine neighbor of a dequeued cell. -/
@[reducible]
def FloodSet (rows cols : Nat) (b : Board) (r0 c0 : Nat) (q : Nat × Nat) : Prop :=
  ∃ p : Nat × Nat, FloodReach rows cols b r0 c0 p ∧
    q ∈ getNeighbors rows cols p.1 p.2 ∧ (b q.1 q.2).revealed = false ∧
    (b q.1 q.2).flagged = false ∧ (b q.1 q.2).mine = false

/-- The set of cells revealed after expanding every cell of the list E: the
unrevealed, unflagged, non-mine neighbors of members of E. -/
@[reducible]
def NbSet (rows cols : Nat) (b0 : Board) (E : List (Nat × Nat)) (q : Nat × Nat) : Prop :=
  ∃ p ∈ E, q ∈ getNeighbors rows cols p.1 p.2 ∧ (b0 q.1 q.2).revealed = false ∧
    (b0 q.1 q.2).flagged = false ∧ (b0 q.1 q.2).mine = false

/-- Modelled from the spec's words (the claim side): the 8-connected
component of zero-adjacency cells reachable from the start cell, irrespective
of revealed or flagged state. -/
inductive ZeroComponent (rows cols : Nat) (b : Board) (r0 c0 : Nat) : Nat × Nat → Prop
  | start : ZeroComponent rows cols b r0 c0 (r0, c0)
  | step (p q : Nat × Nat) : ZeroComponent rows cols b r0 c0 p →
      q ∈ getNeighbors rows cols p.1 p.2 → (b q.1 q.2).adjacent = 0 →
      ZeroComponent rows cols b r0 c0 q

/-- A 1 x 3 mineless in-progress board whose middle cell is flagged; every
cell has adjacency zero. -/
def floodCexState : GameState :=
  { rows := 1, cols := 3, mineCount := 0,
    board := updateCell createEmptyBoard 0 1 (fun cell => { cell with flagged := true }),
    flagsPlaced := 1, firstClick := false, gameOver := false, revealedCount := 0,
    message := "" }

/-! ## Concrete states used to instantiate the theorems -/

/-- A 1 x 2 in-progress game whose second cell is a mine. -/
def mineNextDoor : GameState :=
  { rows := 1, cols := 2, mineCount := 1,
    board := computeAdjacency 1 2 (setMine createEmptyBoard 0 1),
    flagsPlaced := 0, firstClick := false, gameOver := false, revealedCount := 0,
    message := "" }

/-- A finished (lost) 1 x 1 game. -/
def finishedState : GameState :=
  { rows := 1, cols := 1, mineCount := 1,
    board := setMine createEmptyBoard 0 0,
    flagsPlaced := 0, firstClick := false, gameOver := true, revealedCount := 1,
    message := loseMessage }

/-- A 2 x 2 in-progress game with cell (0,0) flagged. -/
def flaggedCorner : GameState :=
  { rows := 2, cols := 2, mineCount := 1,
    board := updateCell (setMine createEmptyBoard 1 1) 0 0
      (fun cell => { cell with flagged := true }),
    flagsPlaced := 1, firstClick := false, gameOver := false, revealedCount := 0,
    message := "" }

/-- A prior state whose stored configuration is invalid in the sense of the
design document (rows = 0 and mineCount at least rows * cols), with a marked
board and nonzero counters, to observe what resetGame does to it. -/
def staleState : GameState :=
  { rows := 0, cols := 0, mineCount := 5,
    board := setMine createEmptyBoard 0 0,
    flagsPlaced := 3, firstClick := false, gameOver := true, revealedCount := 7,
    message := loseMessage }

/-- No cell is simultaneously revealed and flagged. -/
def NoRevealedFlag (s : GameState) : Prop :=
  ∀ r c : Nat, ¬((s.board r c).revealed = true ∧ (s.board r c).flagged = true)

/-- Every cell that is both revealed and flagged is an exposed mine of a
finished game. -/
def RevealedFlagInv (s : GameState) : Prop :=
  ∀ r c : Nat, (s.board r c).revealed = true → (s.board r c).flagged = true →
    (s.board r c).mine = true ∧ s.gameOver = true

/-- A mine stream for the beginner board: ten distinct cells, none equal to
(0,0), with mines at (1,1) and (1,3). -/
def beginnerMines : List (Nat × Nat) :=
  [(1, 1), (1, 3), (3, 1), (3, 3), (5, 1), (5, 3), (7, 1), (7, 3), (3, 5), (5, 5)]

/-- First command after page load: reveal (0,0), which places the ten mines. -/
def exposureStep1 : GameState := cmdReveal initState 0 0 beginnerMines

/-- Second command: flag the mine at (1,1). -/
def exposureStep2 : GameState := cmdToggleFlag exposureStep1 1 1

/-- Third command: reveal the mine at (1,3); the game is lost and
revealAllMines exposes the flagged mine at (1,1) without unflagging it. -/
def exposureState : GameState := cmdReveal exposureStep2 1 3 []

/-! ## Theorems -/

lemma updateCell_self (b : Board) (r c : Nat) (f : Cell → Cell) :
    updateCell b r c f r c = f (b r c) := by
  simp [updateCell]

lemma updateCell_ne (b : Board) (r c : Nat) (f : Cell → Cell) (r' c' : Nat)
    (h : ¬(r' = r ∧ c' = c)) : updateCell b r c f r' c' = b r' c' := by
  simp only [updateCell, if_neg h]

lemma revealPrep_of_not_first (s : GameState) (r c : Nat) (stream : List (Nat × Nat))
    (h : s.firstClick = false) : revealPrep s r c stream = s := by
  unfold revealPrep
  rw [h]
  simp

lemma revealPrep_rows (s : GameState) (r c : Nat) (stream : List (Nat × Nat)) :
    (revealPrep s r c stream).rows = s.rows := by
  unfold revealPrep placeMines
  split <;> rfl

lemma revealPrep_cols (s : GameState) (r c : Nat) (stream : List (Nat × Nat)) :
    (revealPrep s r c stream).cols = s.cols := by
  unfold revealPrep placeMines
  split <;> rfl

lemma revealPrep_mineCount (s : GameState) (r c : Nat) (stream : List (Nat × Nat)) :
    (revealPrep s r c stream).mineCount = s.mineCount := by
  unfold revealPrep placeMines
  split <;> rfl

lemma revealPrep_gameOver (s : GameState) (r c : Nat) (stream : List (Nat × Nat)) :
    (revealPrep s r c stream).gameOver = s.gameOver := by
  unfold revealPrep placeMines
  split <;> rfl

lemma revealPrep_revealedCount (s : GameState) (r c : Nat) (stream : List (Nat × Nat)) :
    (revealPrep s r c stream).revealedCount = s.revealedCount := by
  unfold revealPrep placeMines
  split <;> rfl

lemma revealPrep_flagsPlaced (s : GameState) (r c : Nat) (stream : List (Nat × Nat)) :
    (revealPrep s r c stream).flagsPlaced = s.flagsPlaced := by
  unfold revealPrep placeMines
  split <;> rfl

lemma revealPrep_message (s : GameState) (r c : Nat) (stream : List (Nat × Nat)) :
    (revealPrep s r c stream).message = s.message := by
  unfold revealPrep placeMines
  split <;> rfl

lemma floodReveal_rows (s : GameState) (r c : Nat) : (floodReveal s r c).rows = s.rows := rfl

lemma floodReveal_cols (s : GameState) (r c : Nat) : (floodReveal s r c).cols = s.cols := rfl

lemma floodReveal_mineCount (s : GameState) (r c : Nat) :
    (floodReveal s r c).mineCount = s.mineCount := rfl

lemma floodReveal_gameOver (s : GameState) (r c : Nat) :
    (floodReveal s r c).gameOver = s.gameOver := rfl

lemma floodReveal_firstClick (s : GameState) (r c : Nat) :
    (floodReveal s r c).firstClick = s.firstClick := rfl

lemma floodReveal_flagsPlaced (s : GameState) (r c : Nat) :
    (floodReveal s r c).flagsPlaced = s.flagsPlaced := rfl

lemma floodReveal_message (s : GameState) (r c : Nat) :
    (floodReveal s r c).message = s.message := rfl

lemma endGame_gameOver (s : GameState) (w : Bool) : (endGame s w).gameOver = true := rfl

lemma endGame_message (s : GameState) (w : Bool) :
    (endGame s w).message = if w then winMessage else loseMessage := rfl

lemma endGame_revealedCount (s : GameState) (w : Bool) :
    (endGame s w).revealedCount = s.revealedCount := rfl

lemma endGame_rows (s : GameState) (w : Bool) : (endGame s w).rows = s.rows := rfl

lemma endGame_cols (s : GameState) (w : Bool) : (endGame s w).cols = s.cols := rfl

lemma endGame_mineCount (s : GameState) (w : Bool) : (endGame s w).mineCount = s.mineCount := rfl

lemma endGame_flagsPlaced (s : GameState) (w : Bool) :
    (endGame s w).flagsPlaced = s.flagsPlaced := rfl

lemma phase_endGame_win (s : GameState) : phase (endGame s true) = Phase.Won := by
  unfold phase
  rw [endGame_gameOver, endGame_message]
  simp

lemma phase_endGame_lose (s : GameState) : phase (endGame s false) = Phase.Lost := by
  unfold phase
  rw [endGame_gameOver, endGame_message]
  rw [if_neg (by decide : ¬(true = false))]
  decide

lemma revealOne_mine (b : Board) (r c r' c' : Nat) :
    ((revealOne b r c) r' c').mine = (b r' c').mine := by
  unfold revealOne updateCell
  split <;> rfl

lemma revealOne_flagged (b : Board) (r c r' c' : Nat) :
    ((revealOne b r c) r' c').flagged = (b r' c').flagged := by
  unfold revealOne updateCell
  split <;> rfl

lemma revealOne_adjacent (b : Board) (r c r' c' : Nat) :
    ((revealOne b r c) r' c').adjacent = (b r' c').adjacent := by
  unfold revealOne updateCell
  split <;> rfl

lemma revealOne_self_revealed (b : Board) (r c : Nat) :
    ((revealOne b r c) r c).revealed = true := by
  unfold revealOne
  rw [updateCell_self]

/-- C10.  Toggling the flag of a covered cell twice restores the state
exactly: the flag and the shared counter return to their original values and
nothing else changes. -/
theorem toggleFlag_involution (s : GameState) (r c : Nat)
    (hrev : (s.board r c).revealed = false) :
    cmdToggleFlag (cmdToggleFlag s r c) r c = s := by
  obtain ⟨rows, cols, mc, bd, fp, fc, go, rcount, msg⟩ := s
  simp only at hrev
  by_cases hin : r < rows ∧ c < cols
  · cases go with
    | true => simp [cmdToggleFlag, hin]
    | false =>
      have hsame : ∀ f : Cell → Cell, updateCell bd r c f r c = f (bd r c) :=
        fun f => updateCell_self bd r c f
      simp only [cmdToggleFlag, toggleFlag, hin, and_self, if_true, hrev,
        Bool.false_eq_true, if_false, hsame, Bool.not_not]
      simp only [Cell.revealed, hrev, Bool.false_eq_true, if_false,
        GameState.mk.injEq, true_and, and_true]
      constructor
      · funext r' c'
        by_cases hp : r' = r ∧ c' = c
        · obtain ⟨h1, h2⟩ := hp
          subst h1; subst h2
          rw [updateCell_self, updateCell_self]
          cases hbd : bd r' c'
          simp
        · rw [updateCell_ne _ _ _ _ _ _ hp, updateCell_ne _ _ _ _ _ _ hp]
      · cases hf : (bd r c).flagged <;> simp [hf]
  · simp [cmdToggleFlag, hin]

/-- C10 witness: on the fresh beginner board, toggling (0,0) twice is the
identity. -/
theorem toggleFlag_involution_witness :
    (initState.board 0 0).revealed = false ∧
      cmdToggleFlag (cmdToggleFlag initState 0 0) 0 0 = initState :=
  ⟨by decide, toggleFlag_involution initState 0 0 (by decide)⟩

/-- C8.  A reveal command aimed at a flagged covered cell is a silent no-op:
the state is returned unchanged, so the cell stays covered and flagged and no
counter, phase or other cell moves. -/
theorem reveal_flagged_noop (s : GameState) (r c : Nat) (stream : List (Nat × Nat))
    (hflag : (s.board r c).flagged = true) (hrev : (s.board r c).revealed = false) :
    cmdReveal s r c stream = s ∧
      ((cmdReveal s r c stream).board r c).revealed = false ∧
      ((cmdReveal s r c stream).board r c).flagged = true := by
  have hid : cmdReveal s r c stream = s := by
    by_cases hin : r < s.rows ∧ c < s.cols
    · by_cases hgo : s.gameOver = true
      · simp [cmdReveal, hin, hgo]
      · have hgo' : s.gameOver = false := by simpa using hgo
        simp [cmdReveal, hin, hgo', hflag]
    · simp [cmdReveal, hin]
  refine ⟨hid, ?_, ?_⟩ <;> rw [hid]
  · exact hrev
  · exact hflag

/-- C8 witness: flag (0,0) on a 2 x 2 board, then reveal (0,0): nothing
happens. -/
theorem reveal_flagged_noop_witness :
    (flaggedCorner.board 0 0).flagged = true ∧
      (flaggedCorner.board 0 0).revealed = false ∧
      cmdReveal flaggedCorner 0 0 [] = flaggedCorner ∧
      ((cmdReveal flaggedCorner 0 0 []).board 0 0).revealed = false ∧
      ((cmdReveal flaggedCorner 0 0 []).board 0 0).flagged = true :=
  ⟨by decide, by decide,
    (reveal_flagged_noop flaggedCorner 0 0 [] (by decide) (by decide)).1,
    (reveal_flagged_noop flaggedCorner 0 0 [] (by decide) (by decide)).2.1,
    (reveal_flagged_noop flaggedCorner 0 0 [] (by decide) (by decide)).2.2⟩

lemma phase_inProgress_iff (s : GameState) :
    phase s = Phase.InProgress ↔ s.gameOver = false ∧ s.firstClick = false := by
  unfold phase
  constructor
  · intro h
    by_cases hgo : s.gameOver = false
    · rw [if_pos hgo] at h
      by_cases hfc : s.firstClick = true
      · rw [if_pos hfc] at h
        exact absurd h (by decide)
      · exact ⟨hgo, by simpa using hfc⟩
    · rw [if_neg hgo] at h
      split at h <;> exact absurd h (by decide)
  · rintro ⟨h1, h2⟩
    rw [if_pos h1, h2]
    simp

lemma win_branch (t : GameState) (hgo : t.gameOver = false)
    (hge : t.rows * t.cols - t.mineCount ≤ t.revealedCount) :
    (if checkWin t then endGame t true else t) = endGame t true := by
  have hcw : checkWin t = true := by
    unfold checkWin
    rw [hgo, decide_eq_true hge]
    rfl
  rw [hcw]
  simp

/-- When the target cell is neither revealed nor flagged and is not a mine
after the (possible) first-click placement, revealCell reaches the win check
on a state that agrees with the input on the configuration fields and on
gameOver. -/
lemma revealCell_safe_spec (s : GameState) (r c : Nat) (stream : List (Nat × Nat))
    (hrev : (s.board r c).revealed = false) (hflag : (s.board r c).flagged = false)
    (hmine : ((revealPrep s r c stream).board r c).mine = false) :
    ∃ t : GameState,
      revealCell s r c stream = (if checkWin t then endGame t true else t) ∧
        t.gameOver = s.gameOver ∧ t.rows = s.rows ∧ t.cols = s.cols ∧
        t.mineCount = s.mineCount := by
  unfold revealCell
  simp only [hrev, hflag, Bool.false_eq_true, or_self, if_false]
  rw [show ((revealOne (revealPrep s r c stream).board r c) r c).mine = false by
    rw [revealOne_mine]; exact hmine]
  simp only [Bool.false_eq_true, if_false]
  refine ⟨_, rfl, ?_, ?_, ?_, ?_⟩ <;> split <;>
    simp [floodReveal_gameOver, floodReveal_rows, floodReveal_cols, floodReveal_mineCount,
      revealPrep_gameOver, revealPrep_rows, revealPrep_cols, revealPrep_mineCount]

/-- C5.  From any in-progress state, a reveal that actually uncovers a mine
cell ends the game as Lost during that same command, no matter how many safe
cells are still covered. -/
theorem reveal_mine_loses (s : GameState) (r c : Nat) (stream : List (Nat × Nat))
    (hphase : phase s = Phase.InProgress) (hr : r < s.rows) (hc : c < s.cols)
    (hmine : (s.board r c).mine = true) (hrev : (s.board r c).revealed = false)
    (hflag : (s.board r c).flagged = false) :
    phase (cmdReveal s r c stream) = Phase.Lost := by
  obtain ⟨hgo, hfc⟩ := (phase_inProgress_iff s).1 hphase
  have hcmd : cmdReveal s r c stream = revealCell s r c stream := by
    unfold cmdReveal
    rw [if_pos ⟨hr, hc⟩, hgo, hflag]
    simp
  rw [hcmd]
  unfold revealCell
  rw [revealPrep_of_not_first s r c stream hfc]
  simp only [hrev, hflag, Bool.false_eq_true, or_self, if_false, revealOne_mine, hmine,
    if_true]
  exact phase_endGame_lose _

/-- C5 witness: in a 1 x 2 in-progress game, revealing the mine at (0,1)
yields phase Lost. -/
theorem reveal_mine_loses_witness :
    phase mineNextDoor = Phase.InProgress ∧ (mineNextDoor.board 0 1).mine = true ∧
      phase (cmdReveal mineNextDoor 0 1 []) = Phase.Lost :=
  ⟨by decide, by decide,
    reveal_mine_loses mineNextDoor 0 1 [] (by decide) (by decide) (by decide) (by decide)
      (by decide) (by decide)⟩

/-- C4.  A reveal that is accepted, does not hit a mine, and brings
revealedCount to rows * cols - mineCount makes the phase Won during that same
command; and once gameOver holds, reveal and flag commands return the state
unchanged, so no cell or counter ever moves again. -/
theorem win_on_reveal_and_terminal_freeze (s : GameState) (r c : Nat)
    (stream : List (Nat × Nat)) :
    (s.gameOver = false → r < s.rows → c < s.cols →
      (s.board r c).revealed = false → (s.board r c).flagged = false →
      ((revealPrep s r c stream).board r c).mine = false →
      (cmdReveal s r c stream).revealedCount = s.rows * s.cols - s.mineCount →
      phase (cmdReveal s r c stream) = Phase.Won) ∧
    (s.gameOver = true → cmdReveal s r c stream = s ∧ cmdToggleFlag s r c = s) := by
  constructor
  · intro hgo hr hc hrev hflag hmine hwin
    have hcmd : cmdReveal s r c stream = revealCell s r c stream := by
      unfold cmdReveal
      rw [if_pos ⟨hr, hc⟩, hgo, hflag]
      simp
    obtain ⟨t, ht, htgo, htr, htc, htm⟩ := revealCell_safe_spec s r c stream hrev hflag hmine
    rw [hcmd, ht] at hwin ⊢
    have htgo' : t.gameOver = false := htgo.trans hgo
    have hcnt : t.rows * t.cols - t.mineCount ≤ t.revealedCount := by
      cases hcw : checkWin t with
      | true =>
        rw [hcw] at hwin
        simp only [if_true, endGame_revealedCount] at hwin
        rw [htr, htc, htm, hwin]
      | false =>
        rw [hcw] at hwin
        simp only [Bool.false_eq_true, if_false] at hwin
        rw [htr, htc, htm, hwin]
    rw [win_branch t htgo' hcnt]
    exact phase_endGame_win t
  · intro hgo
    constructor
    · unfold cmdReveal
      rw [hgo]
      simp
    · unfold cmdToggleFlag
      rw [hgo]
      simp

/-- C4 witness: in the 1 x 2 game with one mine, revealing the safe cell
(0,0) brings revealedCount to 1 = 1 * 2 - 1 and wins; and in a finished game,
reveal and flag commands change nothing. -/
theorem win_on_reveal_and_terminal_freeze_witness :
    mineNextDoor.gameOver = false ∧
      (cmdReveal mineNextDoor 0 0 []).revealedCount =
        mineNextDoor.rows * mineNextDoor.cols - mineNextDoor.mineCount ∧
      phase (cmdReveal mineNextDoor 0 0 []) = Phase.Won ∧
      finishedState.gameOver = true ∧
      cmdReveal finishedState 0 0 [] = finishedState ∧
      cmdToggleFlag finishedState 0 0 = finishedState :=
  ⟨by decide, by decide,
    (win_on_reveal_and_terminal_freeze mineNextDoor 0 0 []).1 (by decide) (by decide)
      (by decide) (by decide) (by decide) (by decide) (by decide),
    rfl,
    ((win_on_reveal_and_terminal_freeze finishedState 0 0 []).2 rfl).1,
    ((win_on_reveal_and_terminal_freeze finishedState 0 0 []).2 rfl).2⟩

/-- C9, counterexample to the claim as stated.  The claim asserts that reset
takes a configuration, fails with InvalidDimensions or TooManyMines on an
invalid one, and on failure leaves the prior board, counters and phase
untouched.  The source resetGame takes no configuration and has no failure
result at all: run from a stale state whose stored configuration is invalid in
exactly the claim's sense (rows = 0, mineCount at least rows * cols), it does
not fail and it replaces every component of the prior state. -/
theorem resetGame_never_fails_counterexample :
    staleState.rows = 0 ∧ staleState.mineCount = 5 ∧
      (resetGame staleState).rows = 9 ∧
      (resetGame staleState).mineCount ≠ staleState.mineCount ∧
      (resetGame staleState).board 0 0 ≠ staleState.board 0 0 ∧
      (resetGame staleState).flagsPlaced ≠ staleState.flagsPlaced ∧
      phase (resetGame staleState) ≠ phase staleState := by
  refine ⟨rfl, rfl, rfl, by decide, by decide, by decide, by decide⟩

/-- C9, amended.  resetGame accepts no configuration and cannot fail: from any
prior state it unconditionally installs the beginner configuration of 9 rows,
9 columns and 10 mines, an all-covered fresh board, zero counters, and phase
NotStarted. -/
theorem resetGame_installs_beginner (s : GameState) :
    (resetGame s).rows = 9 ∧ (resetGame s).cols = 9 ∧ (resetGame s).mineCount = 10 ∧
      (resetGame s).flagsPlaced = 0 ∧ (resetGame s).revealedCount = 0 ∧
      phase (resetGame s) = Phase.NotStarted ∧
      (∀ r c : Nat, (resetGame s).board r c = Cell.fresh) := by
  exact ⟨rfl, rfl, rfl, rfl, rfl, rfl, fun _ _ => rfl⟩

lemma mem_gridCells (rows cols r c : Nat) :
    (r, c) ∈ gridCells rows cols ↔ r < rows ∧ c < cols := by
  simp [gridCells, Finset.mem_product, Finset.mem_range]

lemma countFlags_flip_on (rows cols : Nat) (b : Board) (r c : Nat)
    (hr : r < rows) (hc : c < cols) (hf : (b r c).flagged = false) :
    countFlags rows cols (updateCell b r c fun cell => { cell with flagged := !cell.flagged })
      = countFlags rows cols b + 1 := by
  unfold countFlags
  have hset : ((gridCells rows cols).filter fun p =>
        ((updateCell b r c fun cell => { cell with flagged := !cell.flagged }) p.1 p.2).flagged
          = true)
      = insert (r, c) ((gridCells rows cols).filter fun p => (b p.1 p.2).flagged = true) := by
    ext ⟨pr, pc⟩
    by_cases hp : pr = r ∧ pc = c
    · obtain ⟨h1, h2⟩ := hp
      subst h1
      subst h2
      simp [Finset.mem_filter, updateCell_self, hf,
        (mem_gridCells rows cols pr pc).2 ⟨hr, hc⟩]
    · simp only [Finset.mem_filter, Finset.mem_insert, Prod.mk.injEq]
      rw [show (updateCell b r c (fun cell => { cell with flagged := !cell.flagged }) pr pc)
          = b pr pc from updateCell_ne b r c _ pr pc hp]
      constructor
      · rintro ⟨hg, hfl⟩
        exact Or.inr ⟨hg, hfl⟩
      · rintro (heq | ⟨hg, hfl⟩)
        · exact absurd ⟨heq.1, heq.2⟩ hp
        · exact ⟨hg, hfl⟩
  rw [hset, Finset.card_insert_of_not_mem]
  simp [Finset.mem_filter, hf]

lemma countFlags_flip_off (rows cols : Nat) (b : Board) (r c : Nat)
    (hr : r < rows) (hc : c < cols) (hf : (b r c).flagged = true) :
    countFlags rows cols b
      = countFlags rows cols
          (updateCell b r c fun cell => { cell with flagged := !cell.flagged }) + 1 := by
  unfold countFlags
  have hset : ((gridCells rows cols).filter fun p => (b p.1 p.2).flagged = true)
      = insert (r, c) ((gridCells rows cols).filter fun p =>
          ((updateCell b r c fun cell => { cell with flagged := !cell.flagged }) p.1 p.2).flagged
            = true) := by
    ext ⟨pr, pc⟩
    by_cases hp : pr = r ∧ pc = c
    · obtain ⟨h1, h2⟩ := hp
      subst h1
      subst h2
      simp [Finset.mem_filter, hf, (mem_gridCells rows cols pr pc).2 ⟨hr, hc⟩]
    · simp only [Finset.mem_filter, Finset.mem_insert, Prod.mk.injEq]
      rw [show (updateCell b r c (fun cell => { cell with flagged := !cell.flagged }) pr pc)
          = b pr pc from updateCell_ne b r c _ pr pc hp]
      constructor
      · rintro ⟨hg, hfl⟩
        exact Or.inr ⟨hg, hfl⟩
      · rintro (heq | ⟨hg, hfl⟩)
        · exact absurd ⟨heq.1, heq.2⟩ hp
        · exact ⟨hg, hfl⟩
  rw [hset, Finset.card_insert_of_not_mem]
  simp [Finset.mem_filter, updateCell_self, hf]

/-- One flag command preserves the counter invariant. -/
lemma flagsInvariant_step (s : GameState) (r c : Nat)
    (h : s.flagsPlaced = (countFlags s.rows s.cols s.board : Int)) :
    (cmdToggleFlag s r c).flagsPlaced
      = (countFlags (cmdToggleFlag s r c).rows (cmdToggleFlag s r c).cols
          (cmdToggleFlag s r c).board : Int) := by
  unfold cmdToggleFlag
  by_cases hin : r < s.rows ∧ c < s.cols
  · rw [if_pos hin]
    by_cases hgo : s.gameOver = true
    · rw [hgo]
      simpa using h
    · have hgo' : s.gameOver = false := by simpa using hgo
      rw [hgo']
      simp only [Bool.false_eq_true, if_false]
      by_cases hrev : (s.board r c).revealed = true
      · rw [hrev]
        simpa using h
      · have hrev' : (s.board r c).revealed = false := by simpa using hrev
        rw [hrev']
        simp only [Bool.false_eq_true, if_false]
        unfold toggleFlag
        rw [hrev']
        simp only [Bool.false_eq_true, if_false]
        cases hf : (s.board r c).flagged with
        | false =>
          simp only [hf, Bool.not_false, if_true]
          have := countFlags_flip_on s.rows s.cols s.board r c hin.1 hin.2 hf
          rw [h]
          push_cast [this]
          ring
        | true =>
          simp only [hf, Bool.not_true, Bool.false_eq_true, if_false]
          have := countFlags_flip_off s.rows s.cols s.board r c hin.1 hin.2 hf
          rw [h]
          omega
  · rw [if_neg hin]
    exact h

/-- C7.  Starting from a freshly reset board, after any sequence of flag
commands the flagsPlaced counter equals the number of currently flagged
cells. -/
theorem flag_count_invariant (rows cols mineCount : Nat) (l : List (Nat × Nat)) :
    (applyToggles (resetState rows cols mineCount) l).flagsPlaced
      = (countFlags (applyToggles (resetState rows cols mineCount) l).rows
          (applyToggles (resetState rows cols mineCount) l).cols
          (applyToggles (resetState rows cols mineCount) l).board : Int) := by
  suffices h : ∀ (l : List (Nat × Nat)) (s : GameState),
      s.flagsPlaced = (countFlags s.rows s.cols s.board : Int) →
      (applyToggles s l).flagsPlaced
        = (countFlags (applyToggles s l).rows (applyToggles s l).cols
            (applyToggles s l).board : Int) by
    apply h
    simp [resetState, countFlags, createEmptyBoard, Cell.fresh]
  intro l
  induction l with
  | nil => exact fun s hs => hs
  | cons p rest ih => exact fun s hs => ih _ (flagsInvariant_step s p.1 p.2 hs)

lemma setMine_revealed (b : Board) (x y r c : Nat) :
    (setMine b x y r c).revealed = (b r c).revealed := by
  unfold setMine updateCell
  split <;> rfl

lemma setMine_flagged (b : Board) (x y r c : Nat) :
    (setMine b x y r c).flagged = (b r c).flagged := by
  unfold setMine updateCell
  split <;> rfl

lemma placeMinesLoop_revealed (rows cols mc sr sc : Nat) (stream : List (Nat × Nat)) :
    ∀ (b : Board) (placed r c : Nat),
      ((placeMinesLoop rows cols mc sr sc stream b placed).1 r c).revealed
        = (b r c).revealed := by
  induction stream with
  | nil => intro b placed r c; rfl
  | cons p rest ih =>
    intro b placed r c
    obtain ⟨x, y⟩ := p
    unfold placeMinesLoop
    split
    · rfl
    · dsimp only
      split
      · exact ih b placed r c
      · split
        · exact ih b placed r c
        · rw [ih _ _ r c, setMine_revealed]

lemma placeMinesLoop_flagged (rows cols mc sr sc : Nat) (stream : List (Nat × Nat)) :
    ∀ (b : Board) (placed r c : Nat),
      ((placeMinesLoop rows cols mc sr sc stream b placed).1 r c).flagged
        = (b r c).flagged := by
  induction stream with
  | nil => intro b placed r c; rfl
  | cons p rest ih =>
    intro b placed r c
    obtain ⟨x, y⟩ := p
    unfold placeMinesLoop
    split
    · rfl
    · dsimp only
      split
      · exact ih b placed r c
      · split
        · exact ih b placed r c
        · rw [ih _ _ r c, setMine_flagged]

lemma computeAdjacency_revealed (rows cols : Nat) (b : Board) (r c : Nat) :
    ((computeAdjacency rows cols b) r c).revealed = (b r c).revealed := by
  unfold computeAdjacency
  split <;> rfl

lemma computeAdjacency_flagged (rows cols : Nat) (b : Board) (r c : Nat) :
    ((computeAdjacency rows cols b) r c).flagged = (b r c).flagged := by
  unfold computeAdjacency
  split <;> rfl

lemma computeAdjacency_mine (rows cols : Nat) (b : Board) (r c : Nat) :
    ((computeAdjacency rows cols b) r c).mine = (b r c).mine := by
  unfold computeAdjacency
  split <;> rfl

lemma revealPrep_board_revealed (s : GameState) (r c : Nat) (stream : List (Nat × Nat))
    (r' c' : Nat) :
    ((revealPrep s r c stream).board r' c').revealed = (s.board r' c').revealed := by
  unfold revealPrep placeMines
  split
  · dsimp only
    rw [computeAdjacency_revealed, placeMinesLoop_revealed]
  · rfl

lemma revealPrep_board_flagged (s : GameState) (r c : Nat) (stream : List (Nat × Nat))
    (r' c' : Nat) :
    ((revealPrep s r c stream).board r' c').flagged = (s.board r' c').flagged := by
  unfold revealPrep placeMines
  split
  · dsimp only
    rw [computeAdjacency_flagged, placeMinesLoop_flagged]
  · rfl

lemma revealOne_revealed (b : Board) (r c r' c' : Nat) :
    ((revealOne b r c) r' c').revealed
      = if r' = r ∧ c' = c then true else (b r' c').revealed := by
  unfold revealOne updateCell
  split <;> rfl

lemma processNeighbors_flagged (rows cols : Nat) (ns : List (Nat × Nat)) :
    ∀ (b : Board) (cnt : Nat) (q : List (Nat × Nat)) (r c : Nat),
      ((processNeighbors rows cols ns b cnt q).1 r c).flagged = (b r c).flagged := by
  induction ns with
  | nil => intro b cnt q r c; rfl
  | cons p rest ih =>
    intro b cnt q r c
    unfold processNeighbors
    dsimp only
    split
    · split
      · rw [ih, revealOne_flagged]
      · rw [ih, revealOne_flagged]
    · exact ih b cnt q r c

lemma processNeighbors_mine (rows cols : Nat) (ns : List (Nat × Nat)) :
    ∀ (b : Board) (cnt : Nat) (q : List (Nat × Nat)) (r c : Nat),
      ((processNeighbors rows cols ns b cnt q).1 r c).mine = (b r c).mine := by
  induction ns with
  | nil => intro b cnt q r c; rfl
  | cons p rest ih =>
    intro b cnt q r c
    unfold processNeighbors
    dsimp only
    split
    · split
      · rw [ih, revealOne_mine]
      · rw [ih, revealOne_mine]
    · exact ih b cnt q r c

lemma processNeighbors_adjacent (rows cols : Nat) (ns : List (Nat × Nat)) :
    ∀ (b : Board) (cnt : Nat) (q : List (Nat × Nat)) (r c : Nat),
      ((processNeighbors rows cols ns b cnt q).1 r c).adjacent = (b r c).adjacent := by
  induction ns with
  | nil => intro b cnt q r c; rfl
  | cons p rest ih =>
    intro b cnt q r c
    unfold processNeighbors
    dsimp only
    split
    · split
      · rw [ih, revealOne_adjacent]
      · rw [ih, revealOne_adjacent]
    · exact ih b cnt q r c

lemma processNeighbors_revealed_sound (rows cols : Nat) (ns : List (Nat × Nat)) :
    ∀ (b : Board) (cnt : Nat) (q : List (Nat × Nat)) (r c : Nat),
      ((processNeighbors rows cols ns b cnt q).1 r c).revealed = true →
        (b r c).revealed = true ∨ ((b r c).flagged = false ∧ (b r c).mine = false) := by
  induction ns with
  | nil => intro b cnt q r c h; exact Or.inl h
  | cons p rest ih =>
    intro b cnt q r c h
    rw [processNeighbors] at h
    revert h
    split
    case isTrue hok =>
      split <;> intro h <;>
      · rcases ih _ _ _ r c h with h' | h'
        · rw [revealOne_revealed] at h'
          by_cases hp : r = p.1 ∧ c = p.2
          · right
            rw [hp.1, hp.2]
            exact ⟨hok.2.1, hok.2.2⟩
          · left
            rwa [if_neg hp] at h'
        · right
          rwa [revealOne_flagged, revealOne_mine] at h'
    case isFalse hok => exact fun h => ih _ _ _ r c h

lemma floodLoop_flagged (rows cols : Nat) :
    ∀ (fuel : Nat) (b : Board) (cnt : Nat) (queue visited : List (Nat × Nat)) (r c : Nat),
      ((floodLoop rows cols fuel b cnt queue visited).1 r c).flagged = (b r c).flagged := by
  intro fuel
  induction fuel with
  | zero => intro b cnt queue visited r c; rfl
  | succ n ih =>
    intro b cnt queue visited r c
    cases queue with
    | nil => rfl
    | cons p rest =>
      rw [floodLoop]
      split
      · exact ih b cnt rest visited r c
      · rw [ih, processNeighbors_flagged]

lemma floodLoop_mine (rows cols : Nat) :
    ∀ (fuel : Nat) (b : Board) (cnt : Nat) (queue visited : List (Nat × Nat)) (r c : Nat),
      ((floodLoop rows cols fuel b cnt queue visited).1 r c).mine = (b r c).mine := by
  intro fuel
  induction fuel with
  | zero => intro b cnt queue visited r c; rfl
  | succ n ih =>
    intro b cnt queue visited r c
    cases queue with
    | nil => rfl
    | cons p rest =>
      rw [floodLoop]
      split
      · exact ih b cnt rest visited r c
      · rw [ih, processNeighbors_mine]

lemma floodLoop_adjacent (rows cols : Nat) :
    ∀ (fuel : Nat) (b : Board) (cnt : Nat) (queue visited : List (Nat × Nat)) (r c : Nat),
      ((floodLoop rows cols fuel b cnt queue visited).1 r c).adjacent = (b r c).adjacent := by
  intro fuel
  induction fuel with
  | zero => intro b cnt queue visited r c; rfl
  | succ n ih =>
    intro b cnt queue visited r c
    cases queue with
    | nil => rfl
    | cons p rest =>
      rw [floodLoop]
      split
      · exact ih b cnt rest visited r c
      · rw [ih, processNeighbors_adjacent]

lemma floodLoop_revealed_sound (rows cols : Nat) :
    ∀ (fuel : Nat) (b : Board) (cnt : Nat) (queue visited : List (Nat × Nat)) (r c : Nat),
      ((floodLoop rows cols fuel b cnt queue visited).1 r c).revealed = true →
        (b r c).revealed = true ∨ ((b r c).flagged = false ∧ (b r c).mine = false) := by
  intro fuel
  induction fuel with
  | zero => intro b cnt queue visited r c h; exact Or.inl h
  | succ n ih =>
    intro b cnt queue visited r c h
    cases queue with
    | nil => exact Or.inl h
    | cons p rest =>
      rw [floodLoop] at h
      revert h
      split
      · exact fun h => ih _ _ _ _ r c h
      · intro h
        rcases ih _ _ _ _ r c h with h' | h'
        · exact processNeighbors_revealed_sound rows cols _ _ _ _ r c h'
        · rw [processNeighbors_flagged, processNeighbors_mine] at h'
          exact Or.inr h'

lemma floodReveal_board_flagged (s : GameState) (r c r' c' : Nat) :
    ((floodReveal s r c).board r' c').flagged = (s.board r' c').flagged := by
  unfold floodReveal
  exact floodLoop_flagged s.rows s.cols _ s.board s.revealedCount [(r, c)] [] r' c'

lemma floodReveal_board_mine (s : GameState) (r c r' c' : Nat) :
    ((floodReveal s r c).board r' c').mine = (s.board r' c').mine := by
  unfold floodReveal
  exact floodLoop_mine s.rows s.cols _ s.board s.revealedCount [(r, c)] [] r' c'

lemma floodReveal_board_adjacent (s : GameState) (r c r' c' : Nat) :
    ((floodReveal s r c).board r' c').adjacent = (s.board r' c').adjacent := by
  unfold floodReveal
  exact floodLoop_adjacent s.rows s.cols _ s.board s.revealedCount [(r, c)] [] r' c'

lemma floodReveal_board_revealed_sound (s : GameState) (r c r' c' : Nat)
    (h : ((floodReveal s r c).board r' c').revealed = true) :
    (s.board r' c').revealed = true ∨
      ((s.board r' c').flagged = false ∧ (s.board r' c').mine = false) := by
  unfold floodReveal at h
  exact floodLoop_revealed_sound s.rows s.cols _ s.board s.revealedCount [(r, c)] [] r' c' h

lemma revealAllMines_mine (s : GameState) (r c : Nat) :
    ((revealAllMines s).board r c).mine = (s.board r c).mine := by
  unfold revealAllMines
  dsimp only
  split <;> rfl

lemma revealAllMines_flagged (s : GameState) (r c : Nat) :
    ((revealAllMines s).board r c).flagged = (s.board r c).flagged := by
  unfold revealAllMines
  dsimp only
  split <;> rfl

lemma revealAllMines_revealed_sound (s : GameState) (r c : Nat)
    (h : ((revealAllMines s).board r c).revealed = true) :
    (s.board r c).revealed = true ∨ (s.board r c).mine = true := by
  unfold revealAllMines at h
  dsimp only at h
  revert h
  split
  case isTrue hcond => exact fun _ => Or.inr hcond.2.2.1
  case isFalse hcond => exact fun h => Or.inl h

lemma endGame_board_mine (s : GameState) (w : Bool) (r c : Nat) :
    ((endGame s w).board r c).mine = (s.board r c).mine := by
  unfold endGame
  rw [revealAllMines_mine]

lemma endGame_board_flagged (s : GameState) (w : Bool) (r c : Nat) :
    ((endGame s w).board r c).flagged = (s.board r c).flagged := by
  unfold endGame
  rw [revealAllMines_flagged]

lemma endGame_board_revealed_sound (s : GameState) (w : Bool) (r c : Nat)
    (h : ((endGame s w).board r c).revealed = true) :
    (s.board r c).revealed = true ∨ (s.board r c).mine = true := by
  unfold endGame at h
  exact revealAllMines_revealed_sound _ r c h

lemma inv_of_norf (t : GameState) (h : NoRevealedFlag t) : RevealedFlagInv t :=
  fun r c h1 h2 => absurd ⟨h1, h2⟩ (h r c)

lemma norf_of_inv (t : GameState) (hInv : RevealedFlagInv t) (hgo : t.gameOver = false) :
    NoRevealedFlag t := by
  intro r c hh
  have h2 := (hInv r c hh.1 hh.2).2
  rw [hgo] at h2
  exact Bool.noConfusion h2

lemma inv_endGame (t : GameState) (h : NoRevealedFlag t) (w : Bool) :
    RevealedFlagInv (endGame t w) := by
  intro r c h1 h2
  rcases endGame_board_revealed_sound t w r c h1 with hrev | hm
  · exfalso
    apply h r c
    refine ⟨hrev, ?_⟩
    rwa [endGame_board_flagged] at h2
  · constructor
    · rwa [endGame_board_mine]
    · exact endGame_gameOver t w

lemma norf_floodReveal (t : GameState) (r c : Nat) (h : NoRevealedFlag t) :
    NoRevealedFlag (floodReveal t r c) := by
  intro r' c' hh
  obtain ⟨hhr, hhf⟩ := hh
  rw [floodReveal_board_flagged] at hhf
  rcases floodReveal_board_revealed_sound t r c r' c' hhr with h1 | h1
  · exact h r' c' ⟨h1, hhf⟩
  · rw [h1.1] at hhf
    exact Bool.noConfusion hhf

lemma inv_cmdToggleFlag (s : GameState) (r c : Nat) (h : RevealedFlagInv s) :
    RevealedFlagInv (cmdToggleFlag s r c) := by
  unfold cmdToggleFlag
  by_cases hin : r < s.rows ∧ c < s.cols
  swap
  · rw [if_neg hin]
    exact h
  rw [if_pos hin]
  by_cases hgo : s.gameOver = true
  · rw [hgo]
    simpa using h
  have hgo' : s.gameOver = false := by simpa using hgo
  rw [hgo']
  simp only [Bool.false_eq_true, if_false]
  by_cases hrev : (s.board r c).revealed = true
  · rw [hrev]
    simpa using h
  have hrev' : (s.board r c).revealed = false := by simpa using hrev
  rw [hrev']
  simp only [Bool.false_eq_true, if_false]
  unfold toggleFlag
  rw [hrev']
  simp only [Bool.false_eq_true, if_false]
  intro r' c' h1 h2
  dsimp only at h1 h2 ⊢
  by_cases hp : r' = r ∧ c' = c
  · exfalso
    obtain ⟨e1, e2⟩ := hp
    subst e1
    subst e2
    rw [updateCell_self] at h1
    dsimp only at h1
    rw [hrev'] at h1
    exact Bool.noConfusion h1
  · rw [updateCell_ne _ _ _ _ _ _ hp] at h1 h2 ⊢
    exact h r' c' h1 h2

/-- The body of revealCell after its guards: any state whose cells are never
simultaneously revealed and flagged keeps the game-over exposure property
through the reveal, the optional flood fill, and the optional endGame. -/
lemma inv_revealBody (s1 s2 : GameState) (r c : Nat)
    (hs2 : s2 = { s1 with
      board := revealOne s1.board r c,
      revealedCount := s1.revealedCount + 1 })
    (hnorf1 : NoRevealedFlag s1) (hflag1 : (s1.board r c).flagged = false) :
    RevealedFlagInv
      (if (s2.board r c).mine then endGame s2 false
       else
         if checkWin (if (s2.board r c).adjacent = 0 then floodReveal s2 r c else s2)
         then endGame (if (s2.board r c).adjacent = 0 then floodReveal s2 r c else s2) true
         else (if (s2.board r c).adjacent = 0 then floodReveal s2 r c else s2)) := by
  have hnorf2 : NoRevealedFlag s2 := by
    subst hs2
    intro r' c' hh
    obtain ⟨hhr, hhf⟩ := hh
    dsimp only at hhr hhf
    rw [revealOne_flagged] at hhf
    rw [revealOne_revealed] at hhr
    by_cases hp : r' = r ∧ c' = c
    · obtain ⟨e1, e2⟩ := hp
      subst e1
      subst e2
      rw [hflag1] at hhf
      exact Bool.noConfusion hhf
    · rw [if_neg hp] at hhr
      exact hnorf1 r' c' ⟨hhr, hhf⟩
  split
  · exact inv_endGame s2 hnorf2 false
  · by_cases hadj : (s2.board r c).adjacent = 0
    · rw [if_pos hadj]
      have hnorf3 : NoRevealedFlag (floodReveal s2 r c) := norf_floodReveal s2 r c hnorf2
      split
      · exact inv_endGame _ hnorf3 true
      · exact inv_of_norf _ hnorf3
    · rw [if_neg hadj]
      split
      · exact inv_endGame _ hnorf2 true
      · exact inv_of_norf _ hnorf2

lemma inv_cmdReveal (s : GameState) (r c : Nat) (stream : List (Nat × Nat))
    (h : RevealedFlagInv s) : RevealedFlagInv (cmdReveal s r c stream) := by
  unfold cmdReveal
  by_cases hin : r < s.rows ∧ c < s.cols
  swap
  · rw [if_neg hin]
    exact h
  rw [if_pos hin]
  by_cases hgo : s.gameOver = true
  · rw [hgo]
    simpa using h
  have hgo' : s.gameOver = false := by simpa using hgo
  rw [hgo']
  simp only [Bool.false_eq_true, if_false]
  by_cases hflag : (s.board r c).flagged = true
  · rw [hflag]
    simpa using h
  have hflag' : (s.board r c).flagged = false := by simpa using hflag
  rw [hflag']
  simp only [Bool.false_eq_true, if_false]
  unfold revealCell
  by_cases hrev : (s.board r c).revealed = true
  · rw [hrev]
    simp only [true_or, if_true]
    exact h
  have hrev' : (s.board r c).revealed = false := by simpa using hrev
  rw [hrev', hflag']
  simp only [Bool.false_eq_true, or_self, if_false]
  have hnorf : NoRevealedFlag s := norf_of_inv s h hgo'
  have hnorf1 : NoRevealedFlag (revealPrep s r c stream) := by
    intro r' c' hh
    rw [revealPrep_board_revealed, revealPrep_board_flagged] at hh
    exact hnorf r' c' hh
  have hflag1 : ((revealPrep s r c stream).board r c).flagged = false := by
    rw [revealPrep_board_flagged]
    exact hflag'
  exact inv_revealBody (revealPrep s r c stream) _ r c rfl hnorf1 hflag1

/-- C6, amended.  In every reachable state, a cell that is both revealed and
flagged can only be a mine exposed by the game-over reveal: it is a mine and
the game is over.  In particular, while the game is running no cell is ever
both revealed and flagged. -/
theorem revealed_flagged_only_after_game_over (s : GameState) (hs : Reachable s) :
    RevealedFlagInv s := by
  induction hs with
  | init =>
    intro r c h1 h2
    simp [initState, resetState, createEmptyBoard, Cell.fresh] at h1
  | reveal s r c stream _ ih => exact inv_cmdReveal s r c stream ih
  | flag s r c _ ih => exact inv_cmdToggleFlag s r c ih

/-- C6, counterexample to the claim as stated.  Reveal (0,0) (placing the
mines of beginnerMines), flag the mine at (1,1), then reveal the mine at
(1,3): the game ends and revealAllMines sets revealed on the flagged mine at
(1,1) without clearing its flag, so a reachable state contains a cell that is
simultaneously revealed and flagged. -/
theorem revealed_and_flagged_is_reachable :
    Reachable exposureState ∧
      (exposureState.board 1 1).revealed = true ∧
      (exposureState.board 1 1).flagged = true :=
  ⟨Reachable.reveal _ 1 3 []
      (Reachable.flag _ 1 1 (Reachable.reveal _ 0 0 beginnerMines Reachable.init)),
    by decide, by decide⟩

/-- C6 witness for the amended theorem, at the exposure state above: the
revealed-and-flagged cell (1,1) is indeed a mine of a finished game. -/
theorem revealed_flagged_only_after_game_over_witness :
    (exposureState.board 1 1).revealed = true ∧
      (exposureState.board 1 1).flagged = true ∧
      ((exposureState.board 1 1).mine = true ∧ exposureState.gameOver = true) :=
  ⟨by decide, by decide,
    revealed_flagged_only_after_game_over exposureState
      (Reachable.reveal _ 1 3 []
        (Reachable.flag _ 1 1 (Reachable.reveal _ 0 0 beginnerMines Reachable.init)))
      1 1 (by decide) (by decide)⟩

lemma foldl_count_eq (b : Board) (l : List (Nat × Nat)) :
    ∀ acc : Nat,
      l.foldl (fun a q => a + if (b q.1 q.2).mine then 1 else 0) acc
        = acc + (l.filter fun q => (b q.1 q.2).mine).length := by
  induction l with
  | nil => intro acc; simp
  | cons p rest ih =>
    intro acc
    rw [List.foldl_cons, ih]
    by_cases hm : (b p.1 p.2).mine = true
    · simp only [List.filter_cons, hm, if_true, List.length_cons]
      omega
    · have hm' : (b p.1 p.2).mine = false := by simpa using hm
      simp [List.filter_cons, hm']

lemma mem_getNeighbors (rows cols r c q1 q2 : Nat) :
    (q1, q2) ∈ getNeighbors rows cols r c ↔
      q1 < rows ∧ q2 < cols ∧ kingAdj (r, c) (q1, q2) := by
  unfold getNeighbors neighborOffsets kingAdj
  simp only [List.mem_filterMap, List.mem_cons, List.not_mem_nil, or_false,
    Option.ite_none_right_eq_some, Option.some.injEq, Prod.mk.injEq, ne_eq]
  constructor
  · rintro ⟨d, (rfl | rfl | rfl | rfl | rfl | rfl | rfl | rfl), hcond, hq1, hq2⟩ <;>
    · dsimp only at hcond hq1 hq2
      omega
  · rintro ⟨hq1, hq2, hne, hb1, hb2, hb3, hb4⟩
    have h1 : q1 + 1 = r ∨ q1 = r ∨ q1 = r + 1 := by omega
    have h2 : q2 + 1 = c ∨ q2 = c ∨ q2 = c + 1 := by omega
    rcases h1 with h1 | h1 | h1 <;> rcases h2 with h2 | h2 | h2
    · exact ⟨(-1, -1), by decide, by dsimp only; omega⟩
    · exact ⟨(-1, 0), by decide, by dsimp only; omega⟩
    · exact ⟨(-1, 1), by decide, by dsimp only; omega⟩
    · exact ⟨(0, -1), by decide, by dsimp only; omega⟩
    · exact absurd ⟨by omega, by omega⟩ hne
    · exact ⟨(0, 1), by decide, by dsimp only; omega⟩
    · exact ⟨(1, -1), by decide, by dsimp only; omega⟩
    · exact ⟨(1, 0), by decide, by dsimp only; omega⟩
    · exact ⟨(1, 1), by decide, by dsimp only; omega⟩

lemma getNeighbors_nodup (rows cols r c : Nat) : (getNeighbors rows cols r c).Nodup := by
  unfold getNeighbors
  apply List.Nodup.filterMap
  · intro a a' q hq hq'
    rw [Option.mem_def] at hq hq'
    revert hq hq'
    dsimp only
    split
    case isTrue hc1 =>
      split
      case isTrue hc2 =>
        intro hq hq'
        rw [Option.some.injEq] at hq hq'
        obtain ⟨a1, a2⟩ := a
        obtain ⟨b1, b2⟩ := a'
        subst hq
        rw [Prod.mk.injEq] at hq'
        obtain ⟨e1, e2⟩ := hq'
        dsimp only at hc1 hc2 e1 e2 ⊢
        rw [Prod.mk.injEq]
        constructor <;> omega
      case isFalse => intro _ h; exact Option.noConfusion h
    case isFalse => intro h; exact Option.noConfusion h
  · unfold neighborOffsets
    decide

lemma getNeighbors_length_le (rows cols r c : Nat) :
    (getNeighbors rows cols r c).length ≤ 8 := by
  unfold getNeighbors
  exact (List.length_filterMap_le _ _).trans (by rw [neighborOffsets]; rfl)

lemma countAdjacentMines_eq_spec (rows cols : Nat) (b : Board) (r c : Nat) :
    countAdjacentMines rows cols b r c = specAdjCount rows cols b r c := by
  unfold countAdjacentMines specAdjCount
  rw [foldl_count_eq b (getNeighbors rows cols r c) 0, Nat.zero_add]
  have hnd : ((getNeighbors rows cols r c).filter fun q => (b q.1 q.2).mine).Nodup :=
    (getNeighbors_nodup rows cols r c).filter _
  rw [← List.toFinset_card_of_nodup hnd, List.toFinset_filter]
  congr 1
  ext ⟨q1, q2⟩
  simp only [Finset.mem_filter, List.mem_toFinset, mem_getNeighbors, mem_gridCells]
  constructor
  · rintro ⟨⟨hq1, hq2, hadj⟩, hm⟩
    exact ⟨⟨hq1, hq2⟩, hadj, hm⟩
  · rintro ⟨⟨hq1, hq2⟩, hadj, hm⟩
    exact ⟨⟨hq1, hq2, hadj⟩, hm⟩

lemma countAdjacentMines_le_eight (rows cols : Nat) (b : Board) (r c : Nat) :
    countAdjacentMines rows cols b r c ≤ 8 := by
  unfold countAdjacentMines
  rw [foldl_count_eq b (getNeighbors rows cols r c) 0, Nat.zero_add]
  exact (List.length_filter_le _ _).trans (getNeighbors_length_le rows cols r c)

lemma specAdjCount_congr (rows cols : Nat) (b b' : Board) (r c : Nat)
    (h : ∀ r' c', (b r' c').mine = (b' r' c').mine) :
    specAdjCount rows cols b r c = specAdjCount rows cols b' r c := by
  unfold specAdjCount
  congr 1
  apply Finset.filter_congr
  intro q _
  rw [h q.1 q.2]

/-- C2.  After placeMines, every in-bounds non-mine cell stores in adjacent
exactly the number of its in-bounds king-move neighbors whose isMine flag is
true; the value is at most 8. -/
theorem adjacency_counts_exact (s : GameState) (safeRow safeCol : Nat)
    (stream : List (Nat × Nat)) (r c : Nat) (hr : r < s.rows) (hc : c < s.cols)
    (hm : (((placeMines s safeRow safeCol stream).board) r c).mine = false) :
    (((placeMines s safeRow safeCol stream).board) r c).adjacent
        = specAdjCount s.rows s.cols (placeMines s safeRow safeCol stream).board r c ∧
      (((placeMines s safeRow safeCol stream).board) r c).adjacent ≤ 8 := by
  unfold placeMines at hm ⊢
  dsimp only at hm ⊢
  have hm' : ((placeMinesLoop s.rows s.cols s.mineCount safeRow safeCol stream
      s.board 0).1 r c).mine = false := by
    rw [computeAdjacency_mine] at hm
    exact hm
  have hadj : ((computeAdjacency s.rows s.cols
      (placeMinesLoop s.rows s.cols s.mineCount safeRow safeCol stream s.board 0).1) r c).adjacent
      = countAdjacentMines s.rows s.cols
          (placeMinesLoop s.rows s.cols s.mineCount safeRow safeCol stream s.board 0).1 r c := by
    unfold computeAdjacency
    rw [if_pos ⟨hr, hc, hm'⟩]
  rw [hadj]
  refine ⟨?_, countAdjacentMines_le_eight _ _ _ _ _⟩
  rw [countAdjacentMines_eq_spec]
  exact specAdjCount_congr _ _ _ _ _ _
    (fun r' c' => (computeAdjacency_mine s.rows s.cols _ r' c').symm)

/-- C2 witness: place one mine at (1,1) on the fresh beginner board; the safe
corner (0,0) is not a mine and its stored adjacency, 1, matches the
brute-force neighbor scan and is at most 8. -/
theorem adjacency_counts_exact_witness :
    (((placeMines initState 0 0 [(1, 1)]).board) 0 0).mine = false ∧
      (((placeMines initState 0 0 [(1, 1)]).board) 0 0).adjacent
          = specAdjCount 9 9 (placeMines initState 0 0 [(1, 1)]).board 0 0 ∧
      (((placeMines initState 0 0 [(1, 1)]).board) 0 0).adjacent ≤ 8 :=
  ⟨by decide,
    (adjacency_counts_exact initState 0 0 [(1, 1)] 0 0 (by decide) (by decide) (by decide)).1,
    (adjacency_counts_exact initState 0 0 [(1, 1)] 0 0 (by decide) (by decide) (by decide)).2⟩

lemma setMine_ne (b : Board) (x y r c : Nat) (h : ¬(r = x ∧ c = y)) :
    (setMine b x y) r c = b r c :=
  updateCell_ne b x y _ r c h

lemma countMines_setMine (rows cols : Nat) (b : Board) (r c : Nat)
    (hr : r < rows) (hc : c < cols) (hm : (b r c).mine = false) :
    countMines rows cols (setMine b r c) = countMines rows cols b + 1 := by
  unfold countMines setMine
  have hset : ((gridCells rows cols).filter fun p =>
        ((updateCell b r c fun cell => { cell with mine := true }) p.1 p.2).mine = true)
      = insert (r, c) ((gridCells rows cols).filter fun p => (b p.1 p.2).mine = true) := by
    ext ⟨pr, pc⟩
    by_cases hp : pr = r ∧ pc = c
    · obtain ⟨h1, h2⟩ := hp
      subst h1
      subst h2
      simp [Finset.mem_filter, updateCell_self, (mem_gridCells rows cols pr pc).2 ⟨hr, hc⟩]
    · simp only [Finset.mem_filter, Finset.mem_insert, Prod.mk.injEq]
      rw [show (updateCell b r c (fun cell => { cell with mine := true }) pr pc) = b pr pc
        from updateCell_ne b r c _ pr pc hp]
      constructor
      · rintro ⟨hg, hfl⟩
        exact Or.inr ⟨hg, hfl⟩
      · rintro (heq | ⟨hg, hfl⟩)
        · exact absurd ⟨heq.1, heq.2⟩ hp
        · exact ⟨hg, hfl⟩
  rw [hset, Finset.card_insert_of_not_mem]
  simp [Finset.mem_filter, hm]

lemma placeMinesLoop_count (rows cols mc sr sc : Nat) (hrows : 0 < rows) (hcols : 0 < cols)
    (stream : List (Nat × Nat)) :
    ∀ (b : Board) (placed : Nat),
      countMines rows cols (placeMinesLoop rows cols mc sr sc stream b placed).1 + placed
        = countMines rows cols b + (placeMinesLoop rows cols mc sr sc stream b placed).2 := by
  induction stream with
  | nil => intro b placed; rfl
  | cons p rest ih =>
    intro b placed
    obtain ⟨x, y⟩ := p
    unfold placeMinesLoop
    split
    · rfl
    · dsimp only
      split
      case isTrue => exact ih b placed
      case isFalse hmine =>
        split
        case isTrue => exact ih b placed
        case isFalse hsafe =>
          have hmf : (b (x % rows) (y % cols)).mine = false := by simpa using hmine
          have hstep := ih (setMine b (x % rows) (y % cols)) (placed + 1)
          rw [countMines_setMine rows cols b _ _ (Nat.mod_lt x hrows) (Nat.mod_lt y hcols)
            hmf] at hstep
          omega

lemma placeMinesLoop_safe_mine (rows cols mc sr sc : Nat) (stream : List (Nat × Nat)) :
    ∀ (b : Board) (placed : Nat),
      ((placeMinesLoop rows cols mc sr sc stream b placed).1 sr sc).mine
        = (b sr sc).mine := by
  induction stream with
  | nil => intro b placed; rfl
  | cons p rest ih =>
    intro b placed
    obtain ⟨x, y⟩ := p
    unfold placeMinesLoop
    split
    · rfl
    · dsimp only
      split
      case isTrue => exact ih b placed
      case isFalse hmine =>
        split
        case isTrue => exact ih b placed
        case isFalse hsafe =>
          rw [ih]
          rw [setMine_ne b (x % rows) (y % cols) sr sc
            (fun hcon => hsafe ⟨hcon.1.symm, hcon.2.symm⟩)]

lemma countMines_createEmptyBoard (rows cols : Nat) :
    countMines rows cols createEmptyBoard = 0 := by
  unfold countMines createEmptyBoard Cell.fresh
  simp

lemma countMines_congr (rows cols : Nat) (b b' : Board)
    (h : ∀ r c, (b r c).mine = (b' r c).mine) :
    countMines rows cols b = countMines rows cols b' := by
  unfold countMines
  congr 1
  apply Finset.filter_congr
  intro q _
  rw [h q.1 q.2]

lemma revealBody_board_mine (s2 : GameState) (r0 c0 r c : Nat) :
    ((if (s2.board r0 c0).mine then endGame s2 false
      else
        if checkWin (if (s2.board r0 c0).adjacent = 0 then floodReveal s2 r0 c0 else s2)
        then endGame (if (s2.board r0 c0).adjacent = 0 then floodReveal s2 r0 c0 else s2) true
        else (if (s2.board r0 c0).adjacent = 0 then floodReveal s2 r0 c0 else s2)).board
        r c).mine
      = (s2.board r c).mine := by
  split
  · exact endGame_board_mine s2 false r c
  · by_cases hadj : (s2.board r0 c0).adjacent = 0
    · rw [if_pos hadj]
      split
      · rw [endGame_board_mine, floodReveal_board_mine]
      · exact floodReveal_board_mine s2 r0 c0 r c
    · rw [if_neg hadj]
      split
      · exact endGame_board_mine _ true r c
      · rfl

lemma revealCell_board_mine (s : GameState) (r0 c0 : Nat) (stream : List (Nat × Nat))
    (hrev : (s.board r0 c0).revealed = false) (hflag : (s.board r0 c0).flagged = false)
    (r c : Nat) :
    ((revealCell s r0 c0 stream).board r c).mine
      = ((revealPrep s r0 c0 stream).board r c).mine := by
  unfold revealCell
  rw [hrev, hflag]
  simp only [Bool.false_eq_true, or_self, if_false]
  exact (revealBody_board_mine { revealPrep s r0 c0 stream with
      board := revealOne (revealPrep s r0 c0 stream).board r0 c0,
      revealedCount := (revealPrep s r0 c0 stream).revealedCount + 1 } r0 c0 r c).trans
    (revealOne_mine (revealPrep s r0 c0 stream).board r0 c0 r c)

lemma cmdReveal_board_mine (s : GameState) (r0 c0 : Nat) (stream : List (Nat × Nat))
    (hin : r0 < s.rows ∧ c0 < s.cols) (hgo : s.gameOver = false)
    (hrev : (s.board r0 c0).revealed = false) (hflag : (s.board r0 c0).flagged = false)
    (r c : Nat) :
    ((cmdReveal s r0 c0 stream).board r c).mine
      = ((revealPrep s r0 c0 stream).board r c).mine := by
  unfold cmdReveal
  rw [if_pos hin, hgo, hflag]
  simp only [Bool.false_eq_true, if_false]
  exact revealCell_board_mine s r0 c0 stream hrev hflag r c

/-- C1.  For any valid configuration (positive dimensions, mineCount below
rows * cols), after reset followed by a first reveal at any in-bounds
(r0, c0): the revealed cell is never a mine and, provided the random stream
let the placement loop finish (the source would keep drawing until it does),
exactly mineCount grid cells carry a mine. -/
theorem first_reveal_safe_and_mine_count (rows cols mineCount r0 c0 : Nat)
    (stream : List (Nat × Nat)) (hrows : 0 < rows) (hcols : 0 < cols)
    (hmc : mineCount < rows * cols) (hr : r0 < rows) (hc : c0 < cols)
    (hdone : (placeMinesLoop rows cols mineCount r0 c0 stream createEmptyBoard 0).2
      = mineCount) :
    ((cmdReveal (resetState rows cols mineCount) r0 c0 stream).board r0 c0).mine = false ∧
      countMines rows cols
        (cmdReveal (resetState rows cols mineCount) r0 c0 stream).board = mineCount := by
  set s := resetState rows cols mineCount with hs
  have hin : r0 < s.rows ∧ c0 < s.cols := ⟨hr, hc⟩
  have hgo : s.gameOver = false := rfl
  have hrev : (s.board r0 c0).revealed = false := rfl
  have hflag : (s.board r0 c0).flagged = false := rfl
  have hkey : ∀ r c, ((cmdReveal s r0 c0 stream).board r c).mine
      = ((revealPrep s r0 c0 stream).board r c).mine :=
    fun r c => cmdReveal_board_mine s r0 c0 stream hin hgo hrev hflag r c
  have hprep : ∀ r c, ((revealPrep s r0 c0 stream).board r c).mine
      = ((placeMinesLoop rows cols mineCount r0 c0 stream createEmptyBoard 0).1 r c).mine := by
    intro r c
    unfold revealPrep
    rw [if_pos (show s.firstClick = true from rfl)]
    dsimp only
    unfold placeMines
    dsimp only
    rw [computeAdjacency_mine]
    rfl
  constructor
  · rw [hkey, hprep, placeMinesLoop_safe_mine]
    rfl
  · have hcnt := placeMinesLoop_count rows cols mineCount r0 c0 hrows hcols stream
      createEmptyBoard 0
    rw [countMines_createEmptyBoard, hdone] at hcnt
    have heq : countMines rows cols (cmdReveal s r0 c0 stream).board
        = countMines rows cols
            (placeMinesLoop rows cols mineCount r0 c0 stream createEmptyBoard 0).1 :=
      countMines_congr _ _ _ _ (fun r c => (hkey r c).trans (hprep r c))
    omega

/-- C1 witness: a 2 x 2 board with one mine; the stream [(1,1)] completes the
placement, the revealed corner (0,0) is safe, and exactly one mine was placed. -/
theorem first_reveal_safe_and_mine_count_witness :
    (placeMinesLoop 2 2 1 0 0 [(1, 1)] createEmptyBoard 0).2 = 1 ∧
      ((cmdReveal (resetState 2 2 1) 0 0 [(1, 1)]).board 0 0).mine = false ∧
      countMines 2 2 (cmdReveal (resetState 2 2 1) 0 0 [(1, 1)]).board = 1 :=
  ⟨by decide,
    (first_reveal_safe_and_mine_count 2 2 1 0 0 [(1, 1)] (by decide) (by decide) (by decide)
      (by decide) (by decide) (by decide)).1,
    (first_reveal_safe_and_mine_count 2 2 1 0 0 [(1, 1)] (by decide) (by decide) (by decide)
      (by decide) (by decide) (by decide)).2⟩

lemma floodCand_eq_true_iff (b : Board) (q : Nat × Nat) :
    floodCand b q = true ↔
      ((b q.1 q.2).revealed = false ∧ (b q.1 q.2).flagged = false ∧
        (b q.1 q.2).mine = false) := by
  unfold floodCand
  simp [Bool.and_eq_true, Bool.not_eq_true', and_assoc]

lemma floodCandZero_eq_true_iff (b : Board) (q : Nat × Nat) :
    floodCandZero b q = true ↔
      ((b q.1 q.2).revealed = false ∧ (b q.1 q.2).flagged = false ∧
        (b q.1 q.2).mine = false ∧ (b q.1 q.2).adjacent = 0) := by
  unfold floodCandZero
  rw [Bool.and_eq_true, floodCand_eq_true_iff]
  simp [and_assoc]

lemma floodCand_congr_ne (b : Board) (p q : Nat × Nat)
    (h : ¬(q.1 = p.1 ∧ q.2 = p.2)) :
    floodCand (revealOne b p.1 p.2) q = floodCand b q := by
  unfold floodCand
  rw [show (revealOne b p.1 p.2) q.1 q.2 = b q.1 q.2
    from updateCell_ne b p.1 p.2 _ q.1 q.2 h]

lemma floodCandZero_congr_ne (b : Board) (p q : Nat × Nat)
    (h : ¬(q.1 = p.1 ∧ q.2 = p.2)) :
    floodCandZero (revealOne b p.1 p.2) q = floodCandZero b q := by
  unfold floodCandZero
  rw [floodCand_congr_ne b p q h,
    show (revealOne b p.1 p.2) q.1 q.2 = b q.1 q.2
      from updateCell_ne b p.1 p.2 _ q.1 q.2 h]

lemma floodCand_false_of (b : Board) (p : Nat × Nat)
    (h : ¬((b p.1 p.2).revealed = false ∧ (b p.1 p.2).flagged = false ∧
      (b p.1 p.2).mine = false)) : floodCand b p = false := by
  unfold floodCand
  cases h1 : (b p.1 p.2).revealed <;> cases h2 : (b p.1 p.2).flagged <;>
    cases h3 : (b p.1 p.2).mine <;> simp_all

lemma processNeighbors_revealed_spec (rows cols : Nat) :
    ∀ (ns : List (Nat × Nat)), ns.Nodup →
      ∀ (b : Board) (cnt : Nat) (q0 : List (Nat × Nat)) (r c : Nat),
        (((processNeighbors rows cols ns b cnt q0).1 r c).revealed = true ↔
          ((b r c).revealed = true ∨ ((r, c) ∈ ns ∧ floodCand b (r, c) = true))) := by
  intro ns
  induction ns with
  | nil =>
    intro _ b cnt q0 r c
    simp [processNeighbors]
  | cons p rest ih =>
    intro hnd b cnt q0 r c
    have hpr : p ∉ rest := (List.nodup_cons.mp hnd).1
    have hndr : rest.Nodup := (List.nodup_cons.mp hnd).2
    unfold processNeighbors
    dsimp only
    by_cases hok : (b p.1 p.2).revealed = false ∧ (b p.1 p.2).flagged = false ∧
        (b p.1 p.2).mine = false
    · rw [if_pos hok]
      have hcand : floodCand b p = true := (floodCand_eq_true_iff b p).2 hok
      have key : ∀ q0' : List (Nat × Nat),
          (((processNeighbors rows cols rest (revealOne b p.1 p.2) (cnt + 1) q0').1
              r c).revealed = true ↔
            ((b r c).revealed = true ∨ ((r, c) ∈ p :: rest ∧ floodCand b (r, c) = true))) := by
        intro q0'
        rw [ih hndr (revealOne b p.1 p.2) (cnt + 1) q0' r c]
        by_cases hrc : r = p.1 ∧ c = p.2
        · obtain ⟨e1, e2⟩ := hrc
          constructor
          · intro _
            refine Or.inr ⟨?_, ?_⟩
            · rw [show (r, c) = p from Prod.ext e1 e2]
              exact List.mem_cons_self p rest
            · rw [show (r, c) = p from Prod.ext e1 e2]
              exact hcand
          · intro _
            left
            rw [revealOne_revealed, if_pos ⟨e1, e2⟩]
        · rw [revealOne_revealed, if_neg hrc, floodCand_congr_ne b p (r, c) hrc]
          constructor
          · rintro (h | ⟨hm, hc2⟩)
            · exact Or.inl h
            · exact Or.inr ⟨List.mem_cons_of_mem p hm, hc2⟩
          · rintro (h | ⟨hm, hc2⟩)
            · exact Or.inl h
            · rcases List.mem_cons.mp hm with heq | hm'
              · exfalso
                exact hrc ⟨congrArg Prod.fst heq, congrArg Prod.snd heq⟩
              · exact Or.inr ⟨hm', hc2⟩
      by_cases hadj : 0 < (b p.1 p.2).adjacent
      · rw [if_pos hadj]
        exact key q0
      · rw [if_neg hadj]
        exact key (q0 ++ [p])
    · rw [if_neg hok]
      rw [ih hndr b cnt q0 r c]
      have hcf : floodCand b p = false := floodCand_false_of b p hok
      constructor
      · rintro (h | ⟨hm, hc2⟩)
        · exact Or.inl h
        · exact Or.inr ⟨List.mem_cons_of_mem p hm, hc2⟩
      · rintro (h | ⟨hm, hc2⟩)
        · exact Or.inl h
        · rcases List.mem_cons.mp hm with heq | hm'
          · rw [heq] at hc2
            rw [hc2] at hcf
            exact Bool.noConfusion hcf
          · exact Or.inr ⟨hm', hc2⟩

lemma processNeighbors_queue_spec (rows cols : Nat) :
    ∀ (ns : List (Nat × Nat)), ns.Nodup →
      ∀ (b : Board) (cnt : Nat) (q0 : List (Nat × Nat)),
        (processNeighbors rows cols ns b cnt q0).2.2
          = q0 ++ ns.filter (floodCandZero b) := by
  intro ns
  induction ns with
  | nil =>
    intro _ b cnt q0
    simp [processNeighbors]
  | cons p rest ih =>
    intro hnd b cnt q0
    have hpr : p ∉ rest := (List.nodup_cons.mp hnd).1
    have hndr : rest.Nodup := (List.nodup_cons.mp hnd).2
    unfold processNeighbors
    dsimp only
    have hfilter : rest.filter (floodCandZero (revealOne b p.1 p.2))
        = rest.filter (floodCandZero b) := by
      apply List.filter_congr
      intro q hq
      apply floodCandZero_congr_ne
      intro hcon
      apply hpr
      rw [show p = q from (Prod.ext hcon.1 hcon.2).symm]
      exact hq
    by_cases hok : (b p.1 p.2).revealed = false ∧ (b p.1 p.2).flagged = false ∧
        (b p.1 p.2).mine = false
    · rw [if_pos hok]
      have hcand : floodCand b p = true := (floodCand_eq_true_iff b p).2 hok
      by_cases hadj : 0 < (b p.1 p.2).adjacent
      · rw [if_pos hadj]
        rw [ih hndr _ (cnt + 1) q0, hfilter]
        have hz : floodCandZero b p = false := by
          unfold floodCandZero
          have hne : ((b p.1 p.2).adjacent == 0) = false := by
            rw [beq_eq_false_iff_ne]
            omega
          rw [hne, Bool.and_false]
        rw [List.filter_cons_of_neg (by simp [hz])]
      · rw [if_neg hadj]
        rw [ih hndr _ (cnt + 1) (q0 ++ [p]), hfilter]
        have hz : floodCandZero b p = true := by
          unfold floodCandZero
          rw [hcand]
          have h0 : (b p.1 p.2).adjacent = 0 := by omega
          rw [h0]
          rfl
        rw [List.filter_cons_of_pos hz, List.append_assoc]
        rfl
    · rw [if_neg hok]
      rw [ih hndr b cnt q0]
      have hcf : floodCand b p = false := floodCand_false_of b p hok
      have hz : floodCandZero b p = false := by
        unfold floodCandZero
        rw [hcf, Bool.false_and]
      rw [List.filter_cons_of_neg (by simp [hz])]

lemma getNeighbors_bounds (rows cols x y : Nat) (q : Nat × Nat)
    (h : q ∈ getNeighbors rows cols x y) : q.1 < rows ∧ q.2 < cols := by
  obtain ⟨q1, q2⟩ := q
  rw [mem_getNeighbors] at h
  exact ⟨h.1, h.2.1⟩

lemma gridCells_card (rows cols : Nat) : (gridCells rows cols).card = rows * cols := by
  simp [gridCells]

lemma nbset_cons (rows cols : Nat) (b0 : Board) (p : Nat × Nat) (E : List (Nat × Nat))
    (q : Nat × Nat) :
    NbSet rows cols b0 (p :: E) q ↔
      (NbSet rows cols b0 E q ∨ (q ∈ getNeighbors rows cols p.1 p.2 ∧
        (b0 q.1 q.2).revealed = false ∧ (b0 q.1 q.2).flagged = false ∧
        (b0 q.1 q.2).mine = false)) := by
  constructor
  · rintro ⟨x, hx, hrest⟩
    rcases List.mem_cons.mp hx with he | hxv
    · right
      rw [he] at hrest
      exact hrest
    · left
      exact ⟨x, hxv, hrest⟩
  · rintro (⟨x, hx, hrest⟩ | hnew)
    · exact ⟨x, List.mem_cons_of_mem p hx, hrest⟩
    · exact ⟨p, List.mem_cons_self p E, hnew⟩

/-- When the queue has emptied, the expanded set is closed, so it contains
every reachable cell, and the revealed cells are exactly the original ones
plus the flood set. -/
lemma floodLoop_final (rows cols : Nat) (b0 : Board) (r0 c0 : Nat) (b : Board)
    (visited : List (Nat × Nat))
    (hR : ∀ r c, (b r c).revealed = true ↔
      ((b0 r c).revealed = true ∨ NbSet rows cols b0 visited (r, c)))
    (hV : ∀ p ∈ visited, FloodReach rows cols b0 r0 c0 p)
    (hstart : (r0, c0) ∈ visited)
    (hclosed : ∀ p ∈ visited, ∀ q ∈ getNeighbors rows cols p.1 p.2,
      (b0 q.1 q.2).revealed = false → (b0 q.1 q.2).flagged = false →
      (b0 q.1 q.2).mine = false → (b0 q.1 q.2).adjacent = 0 → q ∈ visited) :
    ∀ r c, (b r c).revealed = true ↔
      ((b0 r c).revealed = true ∨ FloodSet rows cols b0 r0 c0 (r, c)) := by
  have hsub : ∀ p, FloodReach rows cols b0 r0 c0 p → p ∈ visited := by
    intro p hp
    induction hp with
    | start => exact hstart
    | step x q hx hq h1 h2 h3 h4 ihx => exact hclosed x ihx q hq h1 h2 h3 h4
  intro r c
  rw [hR r c]
  constructor
  · rintro (h | ⟨p, hpv, hrest⟩)
    · exact Or.inl h
    · exact Or.inr ⟨p, hV p hpv, hrest⟩
  · rintro (h | ⟨p, hp, hrest⟩)
    · exact Or.inl h
    · exact Or.inr ⟨p, hsub p hp, hrest⟩

/-- The main loop invariant of floodReveal: with enough fuel and a queue and
visited set consistent with the original board b0, the loop reveals exactly
the flood set. -/
lemma floodLoop_spec (rows cols : Nat) (b0 : Board) (r0 c0 : Nat) :
    ∀ (fuel : Nat) (b : Board) (cnt : Nat) (queue visited : List (Nat × Nat)),
      (∀ r c, (b r c).flagged = (b0 r c).flagged) →
      (∀ r c, (b r c).mine = (b0 r c).mine) →
      (∀ r c, (b r c).adjacent = (b0 r c).adjacent) →
      (∀ r c, (b r c).revealed = true ↔
        ((b0 r c).revealed = true ∨ NbSet rows cols b0 visited (r, c))) →
      (∀ p ∈ visited, FloodReach rows cols b0 r0 c0 p) →
      (∀ p ∈ queue, FloodReach rows cols b0 r0 c0 p) →
      ((r0, c0) ∈ visited ∨ (r0, c0) ∈ queue) →
      (∀ p ∈ visited, ∀ q ∈ getNeighbors rows cols p.1 p.2,
        (b0 q.1 q.2).revealed = false → (b0 q.1 q.2).flagged = false →
        (b0 q.1 q.2).mine = false → (b0 q.1 q.2).adjacent = 0 →
        (q ∈ visited ∨ q ∈ queue)) →
      (∀ p ∈ queue, p.1 < rows ∧ p.2 < cols) →
      (∀ p ∈ visited, p.1 < rows ∧ p.2 < cols) →
      visited.Nodup →
      queue.length + 9 * (rows * cols - visited.length) ≤ fuel →
      ∀ r c, ((floodLoop rows cols fuel b cnt queue visited).1 r c).revealed = true ↔
        ((b0 r c).revealed = true ∨ FloodSet rows cols b0 r0 c0 (r, c)) := by
  intro fuel
  induction fuel with
  | zero =>
    intro b cnt queue visited hF hM hA hR hV hQ hS hC hQb hVb hnd hfuel
    have hq : queue = [] := by
      cases queue with
      | nil => rfl
      | cons p rest => simp at hfuel
    subst hq
    exact floodLoop_final rows cols b0 r0 c0 b visited hR hV
      (by rcases hS with h | h
          · exact h
          · cases h)
      (fun p hp q hq h1 h2 h3 h4 => by
        rcases hC p hp q hq h1 h2 h3 h4 with h | h
        · exact h
        · cases h)
  | succ n ih =>
    intro b cnt queue visited hF hM hA hR hV hQ hS hC hQb hVb hnd hfuel
    cases queue with
    | nil =>
      exact floodLoop_final rows cols b0 r0 c0 b visited hR hV
        (by rcases hS with h | h
            · exact h
            · cases h)
        (fun p hp q hq h1 h2 h3 h4 => by
          rcases hC p hp q hq h1 h2 h3 h4 with h | h
          · exact h
          · cases h)
    | cons p rest =>
      intro r c
      rw [floodLoop]
      by_cases hpv : p ∈ visited
      · rw [if_pos hpv]
        have hQ2 : ∀ q ∈ rest, FloodReach rows cols b0 r0 c0 q :=
          fun q hq => hQ q (List.mem_cons_of_mem p hq)
        have hS2 : (r0, c0) ∈ visited ∨ (r0, c0) ∈ rest := by
          rcases hS with h | h
          · exact Or.inl h
          · rcases List.mem_cons.mp h with he | hm
            · rw [he]
              exact Or.inl hpv
            · exact Or.inr hm
        have hC2 : ∀ x ∈ visited, ∀ q ∈ getNeighbors rows cols x.1 x.2,
            (b0 q.1 q.2).revealed = false → (b0 q.1 q.2).flagged = false →
            (b0 q.1 q.2).mine = false → (b0 q.1 q.2).adjacent = 0 →
            (q ∈ visited ∨ q ∈ rest) := by
          intro x hx q hq h1 h2 h3 h4
          rcases hC x hx q hq h1 h2 h3 h4 with h | h
          · exact Or.inl h
          · rcases List.mem_cons.mp h with he | hm
            · rw [he]
              exact Or.inl hpv
            · exact Or.inr hm
        have hQb2 : ∀ q ∈ rest, q.1 < rows ∧ q.2 < cols :=
          fun q hq => hQb q (List.mem_cons_of_mem p hq)
        have hfuel2 : rest.length + 9 * (rows * cols - visited.length) ≤ n := by
          simp only [List.length_cons] at hfuel
          omega
        exact ih b cnt rest visited hF hM hA hR hV hQ2 hS2 hC2 hQb2 hVb hnd hfuel2 r c
      · rw [if_neg hpv]
        dsimp only
        have hpq : p ∈ p :: rest := List.mem_cons_self p rest
        have hpb : p.1 < rows ∧ p.2 < cols := hQb p hpq
        have hreach_p : FloodReach rows cols b0 r0 c0 p := hQ p hpq
        have hnds : (getNeighbors rows cols p.1 p.2).Nodup :=
          getNeighbors_nodup rows cols p.1 p.2
        rw [processNeighbors_queue_spec rows cols _ hnds b cnt rest]
        have hF2 : ∀ r' c',
            ((processNeighbors rows cols (getNeighbors rows cols p.1 p.2)
              b cnt rest).1 r' c').flagged = (b0 r' c').flagged :=
          fun r' c' =>
            (processNeighbors_flagged rows cols _ b cnt rest r' c').trans (hF r' c')
        have hM2 : ∀ r' c',
            ((processNeighbors rows cols (getNeighbors rows cols p.1 p.2)
              b cnt rest).1 r' c').mine = (b0 r' c').mine :=
          fun r' c' =>
            (processNeighbors_mine rows cols _ b cnt rest r' c').trans (hM r' c')
        have hA2 : ∀ r' c',
            ((processNeighbors rows cols (getNeighbors rows cols p.1 p.2)
              b cnt rest).1 r' c').adjacent = (b0 r' c').adjacent :=
          fun r' c' =>
            (processNeighbors_adjacent rows cols _ b cnt rest r' c').trans (hA r' c')
        have hR2 : ∀ r' c',
            ((processNeighbors rows cols (getNeighbors rows cols p.1 p.2)
                b cnt rest).1 r' c').revealed = true ↔
              ((b0 r' c').revealed = true ∨
                NbSet rows cols b0 (p :: visited) (r', c')) := by
          intro r' c'
          rw [processNeighbors_revealed_spec rows cols _ hnds b cnt rest r' c',
            hR r' c', nbset_cons]
          constructor
          · rintro ((h | h) | ⟨hm, hcand⟩)
            · exact Or.inl h
            · exact Or.inr (Or.inl h)
            · right
              right
              have hc := (floodCand_eq_true_iff b (r', c')).1 hcand
              have h0rev : (b0 r' c').revealed = false := by
                by_cases hb0 : (b0 r' c').revealed = true
                · exfalso
                  have hbt : (b r' c').revealed = true := (hR r' c').2 (Or.inl hb0)
                  rw [hc.1] at hbt
                  exact Bool.noConfusion hbt
                · simpa using hb0
              refine ⟨hm, h0rev, ?_, ?_⟩
              · rw [← hF r' c']
                exact hc.2.1
              · rw [← hM r' c']
                exact hc.2.2
          · rintro (h | (h | ⟨hm, h1, h2, h3⟩))
            · exact Or.inl (Or.inl h)
            · exact Or.inl (Or.inr h)
            · by_cases hbrev : (b r' c').revealed = true
              · exact Or.inl ((hR r' c').1 hbrev)
              · right
                refine ⟨hm, ?_⟩
                apply (floodCand_eq_true_iff b (r', c')).2
                refine ⟨by simpa using hbrev, ?_, ?_⟩
                · rw [hF r' c']
                  exact h2
                · rw [hM r' c']
                  exact h3
        have hV2 : ∀ x ∈ p :: visited, FloodReach rows cols b0 r0 c0 x := by
          intro x hx
          rcases List.mem_cons.mp hx with he | hm
          · rw [he]
            exact hreach_p
          · exact hV x hm
        have hQ2 : ∀ q ∈ rest ++ (getNeighbors rows cols p.1 p.2).filter (floodCandZero b),
            FloodReach rows cols b0 r0 c0 q := by
          intro q hq
          rcases List.mem_append.mp hq with h | h
          · exact hQ q (List.mem_cons_of_mem p h)
          · rw [List.mem_filter] at h
            have hc := (floodCandZero_eq_true_iff b q).1 h.2
            have h0rev : (b0 q.1 q.2).revealed = false := by
              by_cases hb0 : (b0 q.1 q.2).revealed = true
              · exfalso
                have hbt : (b q.1 q.2).revealed = true := (hR q.1 q.2).2 (Or.inl hb0)
                rw [hc.1] at hbt
                exact Bool.noConfusion hbt
              · simpa using hb0
            refine FloodReach.step p q hreach_p h.1 h0rev ?_ ?_ ?_
            · rw [← hF q.1 q.2]
              exact hc.2.1
            · rw [← hM q.1 q.2]
              exact hc.2.2.1
            · rw [← hA q.1 q.2]
              exact hc.2.2.2
        have hS2 : (r0, c0) ∈ p :: visited ∨
            (r0, c0) ∈ rest ++ (getNeighbors rows cols p.1 p.2).filter (floodCandZero b) := by
          rcases hS with h | h
          · exact Or.inl (List.mem_cons_of_mem p h)
          · rcases List.mem_cons.mp h with he | hm
            · rw [he]
              exact Or.inl (List.mem_cons_self p visited)
            · exact Or.inr (List.mem_append_left _ hm)
        have hC2 : ∀ x ∈ p :: visited, ∀ q ∈ getNeighbors rows cols x.1 x.2,
            (b0 q.1 q.2).revealed = false → (b0 q.1 q.2).flagged = false →
            (b0 q.1 q.2).mine = false → (b0 q.1 q.2).adjacent = 0 →
            (q ∈ p :: visited ∨
              q ∈ rest ++ (getNeighbors rows cols p.1 p.2).filter (floodCandZero b)) := by
          intro x hx q hq h1 h2 h3 h4
          rcases List.mem_cons.mp hx with he | hxv
          · rw [he] at hq
            by_cases hbq : (b q.1 q.2).revealed = true
            · rcases (hR q.1 q.2).1 hbq with hb0 | hnb
              · rw [h1] at hb0
                exact absurd hb0 (by decide)
              · obtain ⟨x', hx', hq', k1, k2, k3⟩ := hnb
                rcases hC x' hx' q hq' k1 k2 k3 h4 with hv | hqq
                · exact Or.inl (List.mem_cons_of_mem p hv)
                · rcases List.mem_cons.mp hqq with hqe | hqr
                  · rw [hqe]
                    exact Or.inl (List.mem_cons_self p visited)
                  · exact Or.inr (List.mem_append_left _ hqr)
            · right
              apply List.mem_append_right
              rw [List.mem_filter]
              refine ⟨hq, ?_⟩
              apply (floodCandZero_eq_true_iff b q).2
              refine ⟨by simpa using hbq, ?_, ?_, ?_⟩
              · rw [hF q.1 q.2]
                exact h2
              · rw [hM q.1 q.2]
                exact h3
              · rw [hA q.1 q.2]
                exact h4
          · rcases hC x hxv q hq h1 h2 h3 h4 with hv | hqq
            · exact Or.inl (List.mem_cons_of_mem p hv)
            · rcases List.mem_cons.mp hqq with hqe | hqr
              · rw [hqe]
                exact Or.inl (List.mem_cons_self p visited)
              · exact Or.inr (List.mem_append_left _ hqr)
        have hQb2 : ∀ q ∈ rest ++ (getNeighbors rows cols p.1 p.2).filter (floodCandZero b),
            q.1 < rows ∧ q.2 < cols := by
          intro q hq
          rcases List.mem_append.mp hq with h | h
          · exact hQb q (List.mem_cons_of_mem p h)
          · rw [List.mem_filter] at h
            exact getNeighbors_bounds rows cols p.1 p.2 q h.1
        have hVb2 : ∀ q ∈ p :: visited, q.1 < rows ∧ q.2 < cols := by
          intro q hq
          rcases List.mem_cons.mp hq with he | hm
          · rw [he]
            exact hpb
          · exact hVb q hm
        have hnd2 : (p :: visited).Nodup := List.nodup_cons.mpr ⟨hpv, hnd⟩
        have hlen : (p :: visited).length ≤ rows * cols := by
          rw [← List.toFinset_card_of_nodup hnd2, ← gridCells_card rows cols]
          apply Finset.card_le_card
          intro x hx
          rw [List.mem_toFinset] at hx
          obtain ⟨x1, x2⟩ := x
          rw [mem_gridCells]
          exact hVb2 (x1, x2) hx
        have hflen : ((getNeighbors rows cols p.1 p.2).filter (floodCandZero b)).length ≤ 8 :=
          (List.length_filter_le _ _).trans (getNeighbors_length_le rows cols p.1 p.2)
        have hfuel2 : (rest ++ (getNeighbors rows cols p.1 p.2).filter
              (floodCandZero b)).length + 9 * (rows * cols - (p :: visited).length) ≤ n := by
          rw [List.length_append]
          simp only [List.length_cons] at hfuel hlen ⊢
          omega
        exact ih _ _ _ _ hF2 hM2 hA2 hR2 hV2 hQ2 hS2 hC2 hQb2 hVb2 hnd2 hfuel2 r c

/-- C3, amended.  For every board state and every in-bounds start cell with
zero adjacency, floodReveal reveals exactly the FloodSet: the unrevealed,
unflagged, non-mine neighbors of the cells reachable from the start through
unrevealed, unflagged, non-mine zero-adjacency cells (this is the claimed
component-plus-border, except that cells that are already revealed or flagged
when the flood starts block the expansion and are skipped); and the flood
never sets isRevealed on a mine cell. -/
theorem floodReveal_characterization (s : GameState) (r0 c0 : Nat)
    (hr : r0 < s.rows) (hc : c0 < s.cols) (hz : (s.board r0 c0).adjacent = 0) :
    (∀ r c, ((floodReveal s r0 c0).board r c).revealed = true ↔
        ((s.board r c).revealed = true ∨ FloodSet s.rows s.cols s.board r0 c0 (r, c))) ∧
      (∀ r c, (s.board r c).mine = true →
        ((floodReveal s r0 c0).board r c).revealed = (s.board r c).revealed) := by
  have hR0 : ∀ r' c', (s.board r' c').revealed = true ↔
      ((s.board r' c').revealed = true ∨ NbSet s.rows s.cols s.board [] (r', c')) := by
    intro r' c'
    constructor
    · exact fun hh => Or.inl hh
    · rintro (hh | ⟨x, hx, -⟩)
      · exact hh
      · exact absurd hx (List.not_mem_nil x)
  have hV0 : ∀ x ∈ ([] : List (Nat × Nat)), FloodReach s.rows s.cols s.board r0 c0 x :=
    fun x hx => absurd hx (List.not_mem_nil x)
  have hQ0 : ∀ x ∈ [(r0, c0)], FloodReach s.rows s.cols s.board r0 c0 x := by
    intro x hx
    rcases List.mem_cons.mp hx with he | hm
    · rw [he]
      exact FloodReach.start
    · exact absurd hm (List.not_mem_nil x)
  have hS0 : (r0, c0) ∈ ([] : List (Nat × Nat)) ∨ (r0, c0) ∈ [(r0, c0)] :=
    Or.inr (List.mem_cons_self _ _)
  have hC0 : ∀ x ∈ ([] : List (Nat × Nat)), ∀ q ∈ getNeighbors s.rows s.cols x.1 x.2,
      (s.board q.1 q.2).revealed = false → (s.board q.1 q.2).flagged = false →
      (s.board q.1 q.2).mine = false → (s.board q.1 q.2).adjacent = 0 →
      (q ∈ ([] : List (Nat × Nat)) ∨ q ∈ [(r0, c0)]) :=
    fun x hx => absurd hx (List.not_mem_nil x)
  have hQb0 : ∀ x ∈ [(r0, c0)], x.1 < s.rows ∧ x.2 < s.cols := by
    intro x hx
    rcases List.mem_cons.mp hx with he | hm
    · rw [he]
      exact ⟨hr, hc⟩
    · exact absurd hm (List.not_mem_nil x)
  have hVb0 : ∀ x ∈ ([] : List (Nat × Nat)), x.1 < s.rows ∧ x.2 < s.cols :=
    fun x hx => absurd hx (List.not_mem_nil x)
  have hfuel0 : ([(r0, c0)] : List (Nat × Nat)).length
      + 9 * (s.rows * s.cols - ([] : List (Nat × Nat)).length)
      ≤ 9 * (s.rows * s.cols) + 1 := by
    simp only [List.length_cons, List.length_nil, Nat.sub_zero]
    omega
  have hmain := floodLoop_spec s.rows s.cols s.board r0 c0 (9 * (s.rows * s.cols) + 1)
    s.board s.revealedCount [(r0, c0)] [] (fun _ _ => rfl) (fun _ _ => rfl)
    (fun _ _ => rfl) hR0 hV0 hQ0 hS0 hC0 hQb0 hVb0 List.nodup_nil hfuel0
  refine ⟨hmain, ?_⟩
  intro r c hmine
  have hns : ¬FloodSet s.rows s.cols s.board r0 c0 (r, c) := by
    rintro ⟨x, -, -, -, -, hm⟩
    rw [hmine] at hm
    exact Bool.noConfusion hm
  have hiff := hmain r c
  cases hb0 : (s.board r c).revealed with
  | false =>
    by_cases hb : ((floodReveal s r0 c0).board r c).revealed = true
    · rcases hiff.1 hb with h | h
      · rw [hb0] at h
        exact absurd h (by decide)
      · exact absurd h hns
    · simpa using hb
  | true => exact hiff.2 (Or.inl hb0)

/-- C3, counterexample to the claim as stated.  On a 1 x 3 mineless board
whose middle cell (0,1) is flagged, every cell has adjacency zero, so (0,2)
lies in the 8-connected zero-adjacency component of the start cell (0,0); yet
floodReveal from (0,0) does not reveal (0,2), because the flagged cell (0,1)
blocks the expansion.  The flood therefore does not reveal the full component
plus border claimed. -/
theorem flood_component_counterexample :
    (floodCexState.board 0 0).adjacent = 0 ∧
      ZeroComponent floodCexState.rows floodCexState.cols floodCexState.board 0 0 (0, 2) ∧
      (floodCexState.board 0 2).mine = false ∧
      (floodCexState.board 0 2).revealed = false ∧
      ((floodReveal floodCexState 0 0).board 0 2).revealed = false := by
  refine ⟨by decide, ?_, by decide, by decide, by decide⟩
  exact ZeroComponent.step (0, 1) (0, 2)
    (ZeroComponent.step (0, 0) (0, 1) ZeroComponent.start (by decide) (by decide))
    (by decide) (by decide)

/-- C3 witness for the amended theorem, on the 1 x 3 flagged-middle board:
the characterization applies at the concrete start (0,0) and cell (0,2). -/
theorem floodReveal_characterization_witness :
    0 < floodCexState.rows ∧ 0 < floodCexState.cols ∧
      (floodCexState.board 0 0).adjacent = 0 ∧
      (((floodReveal floodCexState 0 0).board 0 2).revealed = true ↔
        ((floodCexState.board 0 2).revealed = true ∨
          FloodSet floodCexState.rows floodCexState.cols floodCexState.board 0 0 (0, 2))) :=
  ⟨by decide, by decide, by decide,
    (floodReveal_characterization floodCexState 0 0 (by decide) (by decide) (by decide)).1
      0 2⟩

end Minesweeper
